import Mathlib

/-!
Verification of the claudius trading repository.

The development shallowly embeds the code of
`scripts/analyze-trades-by-symbol.ts` (the closed-trade statistics
aggregation and the exchange/database consistency check) and
`src/strategies/alphaBeta.ts` (the Alpha Beta strategy configuration),
and models the position-protection engine and action executor from the
design document, since their implementation files are not part of the
staged sources.

JavaScript floating-point numbers are modelled as rationals extended
with a NaN element (`JSNum`): arithmetic on two ordinary numbers is
exact rational arithmetic, any operation touching NaN yields NaN, and
every comparison involving NaN is false, matching IEEE/JS semantics on
the decimal literals the scripts manipulate.
-/

/-- A JavaScript number: either NaN or a rational value. -/
inductive JSNum where
  | nan : JSNum
  | num : ℚ → JSNum
deriving DecidableEq, Repr

/-- JS addition: NaN propagates. -/
def jsAdd : JSNum → JSNum → JSNum
  | .num a, .num b => .num (a + b)
  | _, _ => .nan

/-- JS strict greater-than: any comparison with NaN is false. -/
def jsGt : JSNum → JSNum → Bool
  | .num a, .num b => decide (b < a)
  | _, _ => false

/-- JS strict less-than: any comparison with NaN is false. -/
def jsLt : JSNum → JSNum → Bool
  | .num a, .num b => decide (a < b)
  | _, _ => false

/-- JS `Math.abs`. -/
def jsAbs : JSNum → JSNum
  | .nan => .nan
  | .num a => .num |a|

/-- JS division, used in the scripts only under a guard that the divisor
is an ordinary nonzero number. -/
def jsDiv : JSNum → JSNum → JSNum
  | .num a, .num b => .num (a / b)
  | _, _ => .nan

/-- Division of a JS number by a natural count (used for averages,
always guarded by `count > 0` in the source). -/
def jsDivNat (a : JSNum) (n : ℕ) : JSNum := jsDiv a (.num n)

/-- A raw value read from a database column: SQL NULL (also standing for
an absent field, which JS reads as `undefined`), a string, or a number. -/
inductive DbVal where
  | vnull : DbVal
  | vstr : String → DbVal
  | vnum : ℚ → DbVal
deriving DecidableEq, Repr

/-- JS truthiness test on a database value: `null`/`undefined`, the
empty string and the number 0 are falsy. -/
def jsFalsy : DbVal → Bool
  | .vnull => true
  | .vstr s => s = ""
  | .vnum q => decide (q = 0)

/-- The expression `v || "0"` of `analyze-trades-by-symbol.ts` lines
57-58: a falsy pnl/fee field is replaced by the string "0". -/
def orZeroStr (v : DbVal) : DbVal :=
  if jsFalsy v then .vstr "0" else v

/-- Digits of a decimal prefix of a character list, with the rest. -/
def takeDigits : List Char → List Char × List Char
  | [] => ([], [])
  | c :: cs =>
      if c.isDigit then
        let p := takeDigits cs
        (c :: p.1, p.2)
      else ([], c :: cs)

/-- The natural number a digit list denotes. -/
def digitsToNat (l : List Char) : ℕ :=
  l.foldl (fun a c => a * 10 + (c.toNat - 48)) 0

/-- `Number.parseFloat` on a string, modelled for plain decimal
literals (optional sign, integer digits, optional fractional digits):
a string with no leading digit parses to NaN, exactly as in JS. -/
def parseFloatStr (s : String) : JSNum :=
  let cs := s.data
  let signed : ℚ × List Char :=
    match cs with
    | '-' :: r => (-1, r)
    | '+' :: r => (1, r)
    | r => (1, r)
  let ip := takeDigits signed.2
  let fp : List Char :=
    match ip.2 with
    | '.' :: r => (takeDigits r).1
    | _ => []
  if ip.1.isEmpty ∧ fp.isEmpty then .nan
  else .num (signed.1 * ((digitsToNat ip.1 : ℚ) + (digitsToNat fp : ℚ) / 10 ^ fp.length))

/-- `Number.parseFloat` on a database value: a number is re-read from
its decimal printout (identity on rationals in range), `null` parses to
NaN (never reached after the `|| "0"` guard). -/
def jsParseFloat : DbVal → JSNum
  | .vnull => .nan
  | .vnum q => .num q
  | .vstr s => parseFloatStr s

/-- JS `Map` lookup on an association list (first entry with the key;
the lists built below never hold a key twice). -/
def lookupAssoc {κ α : Type} [DecidableEq κ] (m : List (κ × α)) (k : κ) : Option α :=
  (m.find? (fun e => decide (e.1 = k))).map (·.2)

/-- JS `Map` get-or-initialise-then-set: if the key is present its entry
is updated in place, otherwise a fresh entry seeded with `init` is
appended (JS `Map` preserves insertion order). -/
def bumpAssoc {κ α : Type} [DecidableEq κ] (m : List (κ × α)) (k : κ) (init : α)
    (u : α → α) : List (κ × α) :=
  if m.any (fun e => decide (e.1 = k)) then
    m.map (fun e => if e.1 = k then (e.1, u e.2) else e)
  else m ++ [(k, u init)]

/-- A row of the `trades` table as the analysis script reads it
(`type = close` rows only; the pnl and fee columns arrive untyped). -/
structure TradeRow where
  symbol : String
  side : String
  pnl : DbVal
  fee : DbVal
deriving DecidableEq, Repr

/-- `Number.parseFloat(trade.pnl as string || "0")` (line 57). -/
def parsedPnl (t : TradeRow) : JSNum := jsParseFloat (orZeroStr t.pnl)

/-- `Number.parseFloat(trade.fee as string || "0")` (line 58). -/
def parsedFee (t : TradeRow) : JSNum := jsParseFloat (orZeroStr t.fee)

/-- The win test of line 100: `pnl > 0.01`. -/
def isWinJ (p : JSNum) : Bool := jsGt p (.num (1/100))

/-- The loss test of line 106: `pnl < -0.01`. -/
def isLossJ (p : JSNum) : Bool := jsLt p (.num (-(1/100)))

/-- The per-symbol statistics record `TradeStats` of
`analyze-trades-by-symbol.ts` lines 11-30.  During the first pass
`avgWin`/`avgLoss` hold running sums, exactly as in the source, and are
divided into averages by `finalizeStats`. -/
structure TradeStats where
  symbol : String
  totalTrades : ℕ
  winTrades : ℕ
  lossTrades : ℕ
  breakEvenTrades : ℕ
  winRate : JSNum
  totalPnl : JSNum
  totalFees : JSNum
  netPnl : JSNum
  avgWin : JSNum
  avgLoss : JSNum
  profitFactor : JSNum
  largestWin : JSNum
  largestLoss : JSNum
  longTrades : ℕ
  shortTrades : ℕ
  longWinRate : JSNum
  shortWinRate : JSNum
deriving DecidableEq, Repr

/-- The all-zero initial record of lines 62-81. -/
def initStats (symbol : String) : TradeStats where
  symbol := symbol
  totalTrades := 0
  winTrades := 0
  lossTrades := 0
  breakEvenTrades := 0
  winRate := .num 0
  totalPnl := .num 0
  totalFees := .num 0
  netPnl := .num 0
  avgWin := .num 0
  avgLoss := .num 0
  profitFactor := .num 0
  largestWin := .num 0
  largestLoss := .num 0
  longTrades := 0
  shortTrades := 0
  longWinRate := .num 0
  shortWinRate := .num 0

/-- One iteration of the first-pass loop, lines 87-114: totals, the
long/short counters, and the win/loss/break-even classification with
running win/loss sums and largest win/loss. -/
def updateStats (stats : TradeStats) (side : String) (pnl fee : JSNum) : TradeStats :=
  let s0 := { stats with
    totalTrades := stats.totalTrades + 1
    totalPnl := jsAdd stats.totalPnl pnl
    totalFees := jsAdd stats.totalFees fee
    netPnl := jsAdd stats.netPnl pnl }
  let s1 :=
    if side = "long" then { s0 with longTrades := s0.longTrades + 1 }
    else if side = "short" then { s0 with shortTrades := s0.shortTrades + 1 }
    else s0
  if isWinJ pnl then
    { s1 with
      winTrades := s1.winTrades + 1
      avgWin := jsAdd s1.avgWin pnl
      largestWin := if jsGt pnl s1.largestWin then pnl else s1.largestWin }
  else if isLossJ pnl then
    { s1 with
      lossTrades := s1.lossTrades + 1
      avgLoss := jsAdd s1.avgLoss (jsAbs pnl)
      largestLoss := if jsGt (jsAbs pnl) (jsAbs s1.largestLoss) then pnl else s1.largestLoss }
  else
    { s1 with breakEvenTrades := s1.breakEvenTrades + 1 }

/-- One iteration of the grouping loop body (lines 54-115): the JS `Map`
keyed by symbol is an association list in insertion order; a missing
symbol is initialised first (lines 61-82), then updated in place. -/
def insertStatsStep (m : List (String × TradeStats)) (t : TradeRow) :
    List (String × TradeStats) :=
  bumpAssoc m t.symbol (initStats t.symbol)
    (fun st => updateStats st t.side (parsedPnl t) (parsedFee t))

/-- The `symbolStats` map after the first pass over all close rows. -/
def insertStats (rows : List TradeRow) : List (String × TradeStats) :=
  rows.foldl insertStatsStep []

/-- The directional-win re-scan of lines 131-146: for one symbol the
whole trade history is traversed again, counting the closed trades of
that symbol whose pnl is a win and whose side matches. -/
def countDirWins (rows : List TradeRow) (sym side : String) : ℕ :=
  rows.countP (fun t =>
    decide (t.symbol = sym) && isWinJ (parsedPnl t) && decide (t.side = side))

/-- The second pass of lines 118-154: win rate, win/loss averages,
profit factor, and the directional win rates (computed, as in the
source, by re-scanning all rows per symbol). -/
def finalizeStats (rows : List TradeRow) (stats : TradeStats) : TradeStats :=
  let winRate : JSNum :=
    if stats.totalTrades > 0 then .num ((stats.winTrades : ℚ) / stats.totalTrades * 100)
    else .num 0
  let avgWin := if stats.winTrades > 0 then jsDivNat stats.avgWin stats.winTrades else .num 0
  let avgLoss := if stats.lossTrades > 0 then jsDivNat stats.avgLoss stats.lossTrades else .num 0
  let profitFactor := if jsGt avgLoss (.num 0) then jsDiv avgWin avgLoss else .num 0
  let longWins := countDirWins rows stats.symbol "long"
  let shortWins := countDirWins rows stats.symbol "short"
  let longWinRate : JSNum :=
    if stats.longTrades > 0 then .num ((longWins : ℚ) / stats.longTrades * 100) else .num 0
  let shortWinRate : JSNum :=
    if stats.shortTrades > 0 then .num ((shortWins : ℚ) / stats.shortTrades * 100) else .num 0
  { stats with
    winRate := winRate
    avgWin := avgWin
    avgLoss := avgLoss
    profitFactor := profitFactor
    longWinRate := longWinRate
    shortWinRate := shortWinRate }

/-- The complete per-symbol analysis of `analyzeTrades`: group the close
rows by symbol (first pass), then derive the ratios (second pass). -/
def analyzeStats (rows : List TradeRow) : List (String × TradeStats) :=
  (insertStats rows).map (fun e => (e.1, finalizeStats rows e.2))

/-- Overall win-trade count, summed over the per-symbol records (lines
209-217; the source sums over the netPnl-sorted copy of the same
records, and a sum does not depend on the order). -/
def totalsWinTrades (rows : List TradeRow) : ℕ :=
  ((analyzeStats rows).map (fun e => e.2.winTrades)).sum

/-- Overall loss-trade count (lines 209-217). -/
def totalsLossTrades (rows : List TradeRow) : ℕ :=
  ((analyzeStats rows).map (fun e => e.2.lossTrades)).sum

/-- `totalWinPnl` of lines 228-237: a further scan over all rows summing
the winning pnl values. -/
def totalWinPnl (rows : List TradeRow) : JSNum :=
  rows.foldl
    (fun a t => if isWinJ (parsedPnl t) then jsAdd a (parsedPnl t) else a) (.num 0)

/-- `totalLossPnl` of lines 228-237: the same scan summing `Math.abs`
of the losing pnl values. -/
def totalLossPnl (rows : List TradeRow) : JSNum :=
  rows.foldl
    (fun a t => if isLossJ (parsedPnl t) then jsAdd a (jsAbs (parsedPnl t)) else a) (.num 0)

/-- `totalStats.avgWin` of line 239. -/
def overallAvgWin (rows : List TradeRow) : JSNum :=
  if totalsWinTrades rows > 0 then jsDivNat (totalWinPnl rows) (totalsWinTrades rows)
  else .num 0

/-- `totalStats.avgLoss` of line 240. -/
def overallAvgLoss (rows : List TradeRow) : JSNum :=
  if totalsLossTrades rows > 0 then jsDivNat (totalLossPnl rows) (totalsLossTrades rows)
  else .num 0

/-- `overallProfitFactor` of lines 245-247. -/
def overallProfitFactor (rows : List TradeRow) : JSNum :=
  if jsGt (overallAvgLoss rows) (.num 0) then jsDiv (overallAvgWin rows) (overallAvgLoss rows)
  else .num 0

/-- How many times `analyzeTrades` examines a closed-trade record, read
off the loop structure of the source: the grouping loop of line 54
examines every row once; the directional re-scan of line 136 runs once
per symbol entry and examines every row each time; the overall win/loss
sum loop of line 230 examines every row once more. -/
def analyzeRowExaminations (rows : List TradeRow) : ℕ :=
  rows.length + (insertStats rows).length * rows.length + rows.length

/-- Per-(symbol, side) accumulator of the single-pass reference
aggregation. -/
structure DirAgg where
  trades : ℕ
  wins : ℕ
deriving DecidableEq, Repr

/-- Modelled from the spec: the design document replaces the repeated
full re-scan of trade history for directional win rates by "a
single-pass aggregation keyed by symbol and side".  One fold over the
close rows; each row bumps the trade count of its (symbol, side) key
and, when its pnl is a win, the win count. -/
def singlePassDir (rows : List TradeRow) : List ((String × String) × DirAgg) :=
  rows.foldl
    (fun m t =>
      bumpAssoc m (t.symbol, t.side) ⟨0, 0⟩
        (fun a => ⟨a.trades + 1, a.wins + (if isWinJ (parsedPnl t) then 1 else 0)⟩))
    []

/-- The aggregate for a (symbol, side) key, zero when the key never
occurs. -/
def spDir (rows : List TradeRow) (k : String × String) : DirAgg :=
  (lookupAssoc (singlePassDir rows) k).getD ⟨0, 0⟩

/-- A position side. -/
inductive Side where
  | long : Side
  | short : Side
deriving DecidableEq, Repr

/-- An exchange position as `check-position-consistency` parses it
(`ExchangePosition`, script lines 387-395; the side is the sign of the
contract size, and the leverage is truncated to an integer). -/
structure ExchangePosition where
  symbol : String
  size : ℚ
  side : Side
  entryPrice : ℚ
  markPrice : ℚ
  leverage : ℤ
  unrealizedPnl : ℚ
deriving DecidableEq, Repr

/-- A database position row (`DbPosition`, script lines 397-405). -/
structure DbPosition where
  symbol : String
  quantity : ℚ
  entryPrice : ℚ
  currentPrice : ℚ
  leverage : ℤ
  side : Side
  openedAt : String
deriving DecidableEq, Repr

/-- `QUANTITY_EPS = 0.0001` (script line 411). -/
def QUANTITY_EPS : ℚ := 1 / 10000

/-- The `new Map(list.map(p => [p.symbol, p]))` of lines 512-513: with
duplicate symbols the later entry wins, so lookup takes the last entry
with the key. -/
def symMapLookupEx (l : List ExchangePosition) (s : String) : Option ExchangePosition :=
  (l.filter (fun p => decide (p.symbol = s))).getLast?

/-- Database-side map lookup, as `symMapLookupEx`. -/
def symMapLookupDb (l : List DbPosition) (s : String) : Option DbPosition :=
  (l.filter (fun p => decide (p.symbol = s))).getLast?

/-- `missingInDb` (line 515): exchange positions whose symbol has no
database entry. -/
def missingInDb (exPs : List ExchangePosition) (dbPs : List DbPosition) :
    List ExchangePosition :=
  exPs.filter (fun p => !dbPs.any (fun d => decide (d.symbol = p.symbol)))

/-- `missingOnExchange` (line 516): database positions whose symbol has
no exchange entry. -/
def missingOnExchange (exPs : List ExchangePosition) (dbPs : List DbPosition) :
    List DbPosition :=
  dbPs.filter (fun p => !exPs.any (fun e => decide (e.symbol = p.symbol)))

/-- The per-symbol issue test of lines 523-536: the side differs, or the
absolute quantities differ by more than `QUANTITY_EPS`, or both
leverages are nonzero (JS-truthy) and differ. -/
def hasIssues (exchangePos : ExchangePosition) (dbPos : DbPosition) : Bool :=
  decide (dbPos.side ≠ exchangePos.side)
  || decide (QUANTITY_EPS < |(|exchangePos.size|) - (|dbPos.quantity|)|)
  || (decide (dbPos.leverage ≠ 0) && decide (exchangePos.leverage ≠ 0)
      && decide (dbPos.leverage ≠ exchangePos.leverage))

/-- The symbols reported mismatched by the loop of lines 519-541: the
loop runs over the exchange map's keys (each exchange symbol once),
skips symbols absent from the database map, and reports the symbol when
`hasIssues` holds of the two mapped positions. -/
def mismatchedSymbols (exPs : List ExchangePosition) (dbPs : List DbPosition) :
    List String :=
  ((exPs.map (fun p => p.symbol)).dedup).filter (fun s =>
    match symMapLookupEx exPs s, symMapLookupDb dbPs s with
    | some e, some d => hasIssues e d
    | _, _ => false)

/-- An observable effect of the consistency-check script, diffed against
the order of operations in `checkConsistency` (script lines 427-648).
The constructors cover both what the script does (exchange position
reads, the four `SELECT` queries, console output, closing the client)
and the mutating operations it could have performed but does not. -/
inductive ScriptEffect where
  /-- `exchangeClient.getPositions()` (line 442): a read. -/
  | exchangeGetPositions : ScriptEffect
  /-- `SELECT symbol, quantity, entry_price, current_price, leverage,
  side, opened_at FROM positions` (line 483). -/
  | selectPositions : ScriptEffect
  /-- `SELECT ... FROM trades ORDER BY timestamp DESC LIMIT 10`
  (line 572). -/
  | selectRecentTrades : ScriptEffect
  /-- `SELECT ... FROM trades WHERE type = open ... LIMIT 5`
  (line 598). -/
  | selectRecentOpenTrades : ScriptEffect
  /-- `SELECT ... FROM trades WHERE type = close ... LIMIT 5`
  (line 618). -/
  | selectRecentCloseTrades : ScriptEffect
  /-- A `console.log`/`console.error` line. -/
  | consoleLog : ScriptEffect
  /-- `dbClient.close()` (line 646). -/
  | dbClose : ScriptEffect
  /-- Inserting a trade row — never performed by the script. -/
  | dbInsertTrade (t : TradeRow) : ScriptEffect
  /-- Writing the positions table — never performed by the script. -/
  | dbWritePositions (ps : List DbPosition) : ScriptEffect
  /-- Submitting an order, which would change the exchange state —
  never performed by the script. -/
  | submitOrder (ps : List ExchangePosition) : ScriptEffect

/-- The state the consistency check could touch: the database positions
table, the append-only trades table, the exchange's live positions, and
a count of console lines written. -/
structure SystemState where
  dbPositions : List DbPosition
  dbTrades : List TradeRow
  exchangePositions : List ExchangePosition
  consoleLines : ℕ
deriving DecidableEq, Repr

/-- Effect semantics: reads and `close` leave the state unchanged,
console output only grows the console, and the three mutating effects
change the corresponding component. -/
def applyEffect (w : SystemState) : ScriptEffect → SystemState
  | .exchangeGetPositions => w
  | .selectPositions => w
  | .selectRecentTrades => w
  | .selectRecentOpenTrades => w
  | .selectRecentCloseTrades => w
  | .consoleLog => { w with consoleLines := w.consoleLines + 1 }
  | .dbClose => w
  | .dbInsertTrade t => { w with dbTrades := w.dbTrades ++ [t] }
  | .dbWritePositions ps => { w with dbPositions := ps }
  | .submitOrder ps => { w with exchangePositions := ps }

/-- Run a list of effects in order. -/
def runEffects (w : SystemState) (es : List ScriptEffect) : SystemState :=
  es.foldl applyEffect w

/-- The effect trace of one `checkConsistency` run, transcribed from the
script in order: fetch exchange positions, read the positions table,
compare (pure), read the three trade listings, log throughout, close
the client.  Each `consoleLog` stands for the block of log lines
printed at that point; the exact number of lines is immaterial to the
frame property. -/
def checkConsistencyTrace : List ScriptEffect :=
  [.consoleLog, .exchangeGetPositions, .consoleLog, .selectPositions, .consoleLog,
   .consoleLog, .selectRecentTrades, .consoleLog, .selectRecentOpenTrades, .consoleLog,
   .selectRecentCloseTrades, .consoleLog, .dbClose]

/-- Leverage recommendation strings (`leverageRecommend`). -/
structure LeverageRecommend where
  normal : String
  good : String
  strong : String
deriving DecidableEq, Repr

/-- Position-size recommendation strings (`positionSizeRecommend`). -/
structure PositionSizeRecommend where
  normal : String
  good : String
  strong : String
deriving DecidableEq, Repr

/-- Stop-loss percent per leverage bracket (`stopLoss`). -/
structure StopLossConfig where
  low : ℚ
  mid : ℚ
  high : ℚ
deriving DecidableEq, Repr

/-- One trailing-stop level: reaching `trigger`% profit locks the stop
at `stopAt`%. -/
structure TrailingLevel where
  trigger : ℚ
  stopAt : ℚ
deriving DecidableEq, Repr

/-- The three trailing-stop levels (`trailingStop`). -/
structure TrailingStopConfig where
  level1 : TrailingLevel
  level2 : TrailingLevel
  level3 : TrailingLevel
deriving DecidableEq, Repr

/-- One partial-take-profit stage: reaching `trigger`% profit closes
`closePercent`% of the position. -/
structure TakeProfitStage where
  trigger : ℚ
  closePercent : ℚ
deriving DecidableEq, Repr

/-- The three partial-take-profit stages (`partialTakeProfit`). -/
structure TakeProfitConfig where
  stage1 : TakeProfitStage
  stage2 : TakeProfitStage
  stage3 : TakeProfitStage
deriving DecidableEq, Repr

/-- One volatility adjustment factor pair. -/
structure VolFactor where
  leverageFactor : ℚ
  positionFactor : ℚ
deriving DecidableEq, Repr

/-- The volatility adjustment table (`volatilityAdjustment`). -/
structure VolatilityAdjustment where
  highVolatility : VolFactor
  normalVolatility : VolFactor
  lowVolatility : VolFactor
deriving DecidableEq, Repr

/-- `StrategyParams` as `alphaBeta.ts` populates it. -/
structure StrategyParams where
  name : String
  description : String
  leverageMin : ℚ
  leverageMax : ℚ
  leverageRecommend : LeverageRecommend
  positionSizeMin : ℚ
  positionSizeMax : ℚ
  maxTotalMarginPercent : ℚ
  positionSizeRecommend : PositionSizeRecommend
  stopLoss : StopLossConfig
  trailingStop : TrailingStopConfig
  partialTakeProfit : TakeProfitConfig
  peakDrawdownProtection : ℚ
  volatilityAdjustment : VolatilityAdjustment
  entryCondition : String
  riskTolerance : String
  tradingStyle : String
  enableCodeLevelProtection : Bool
  allowAiOverrideProtection : Bool
  maxIdleHours : ℚ
deriving DecidableEq, Repr

/-- `getAlphaBetaStrategy` of `src/strategies/alphaBeta.ts` lines
41-109, field for field. -/
def getAlphaBetaStrategy (maxLeverage : ℚ) : StrategyParams where
  name := "Alpha Beta"
  description := "低频交易，30分钟检查，关注1H/4H趋势，简化评分系统"
  leverageMin := 1
  leverageMax := maxLeverage
  leverageRecommend :=
    { normal := "2倍（良好信号）"
      good := "2-3倍（优秀信号）"
      strong := "3倍（完美信号，谨慎使用）" }
  positionSizeMin := 1
  positionSizeMax := 30
  maxTotalMarginPercent := 50
  positionSizeRecommend :=
    { normal := "8-10%（良好信号，70-80分）"
      good := "10-15%（优秀信号，80-90分）"
      strong := "15-20%（完美信号，90-100分）" }
  stopLoss := { low := -5, mid := -4, high := -(7/2) }
  trailingStop :=
    { level1 := { trigger := 3, stopAt := 1 }
      level2 := { trigger := 6, stopAt := 3 }
      level3 := { trigger := 10, stopAt := 6 } }
  partialTakeProfit :=
    { stage1 := { trigger := 5, closePercent := 50 }
      stage2 := { trigger := 10, closePercent := 30 }
      stage3 := { trigger := 15, closePercent := 20 } }
  peakDrawdownProtection := 50
  volatilityAdjustment :=
    { highVolatility := { leverageFactor := 1, positionFactor := 1 }
      normalVolatility := { leverageFactor := 1, positionFactor := 1 }
      lowVolatility := { leverageFactor := 1, positionFactor := 1 } }
  entryCondition := "信号评分≥70分才能开仓，必须确认1H趋势方向"
  riskTolerance := "严格止损-3%，最大单笔仓位30%"
  tradingStyle := "低频交易，2小时内最多开仓1次，必须检查做空机会"
  enableCodeLevelProtection := true
  allowAiOverrideProtection := true
  maxIdleHours := 8

/-- The ordered trailing-stop level list of a configuration. -/
def trailingLevels (p : StrategyParams) : List TrailingLevel :=
  [p.trailingStop.level1, p.trailingStop.level2, p.trailingStop.level3]

/-- The ordered partial-take-profit stage list of a configuration, with
stage identifiers 1, 2, 3. -/
def tpStages (p : StrategyParams) : List (ℕ × TakeProfitStage) :=
  [(1, p.partialTakeProfit.stage1), (2, p.partialTakeProfit.stage2),
   (3, p.partialTakeProfit.stage3)]

/-- Modelled from the spec: the protection engine's decision for one
position on one tick (the engine implementation file is not among the
staged sources; only its configuration is).  `ForcedReview` is produced
by a global idle check over all symbols, not by the per-position
evaluation below. -/
inductive ProtectAction where
  | NoAction : ProtectAction
  | HardStopLoss : ProtectAction
  | TrailingStopClose (floor : ℚ) : ProtectAction
  | PeakDrawdownClose : ProtectAction
  | PartialClose (stage : ℕ) : ProtectAction
  | ForcedReview : ProtectAction
deriving DecidableEq, Repr

/-- Modelled from the spec: the per-position state the engine reads
(§3 Position — side, entry price, integer leverage, peak pnl high-water
mark, completed partial-take-profit stages). -/
structure EnginePosition where
  side : Side
  entryPrice : ℚ
  leverage : ℤ
  peakPnlPercent : ℚ
  completedStages : List ℕ
deriving DecidableEq, Repr

/-- Modelled from the spec, §4.1 step 1:
`pnlPercent = (currentPrice − entryPrice) / entryPrice × leverage ×
(+1 for long, −1 for short)`, expressed in percent units (× 100) so
that it compares against the percent-denominated thresholds of the
configuration (the spec writes `pnlPercent = −4.0%` against a stop-loss
threshold of −4). -/
def pnlPercent (side : Side) (entryPrice currentPrice : ℚ) (leverage : ℤ) : ℚ :=
  (currentPrice - entryPrice) / entryPrice * 100 * leverage *
    (match side with | .long => 1 | .short => -1)

/-- Modelled from the spec, §3/§4.1 step 3: the stop-loss threshold for
a leverage bracket (low ≤ 5x, mid 6-10x, high ≥ 11x). -/
def stopLossThreshold (cfg : StopLossConfig) (leverage : ℤ) : ℚ :=
  if leverage ≤ 5 then cfg.low
  else if leverage ≤ 10 then cfg.mid
  else cfg.high

/-- Modelled from the spec, §4.1 step 4: the highest trailing level
whose trigger the peak pnl has reached. -/
def highestReachedLevel (levels : List TrailingLevel) (peak : ℚ) : Option TrailingLevel :=
  (levels.filter (fun l => decide (l.trigger ≤ peak))).getLast?

/-- Modelled from the spec: the locked trailing floor — the `stopAt` of
the highest reached level, none while no level is reached. -/
def trailingFloor (levels : List TrailingLevel) (peak : ℚ) : Option ℚ :=
  (highestReachedLevel levels peak).map (fun l => l.stopAt)

/-- Modelled from the spec, §4.1 step 6: scanning stages in ascending
trigger order, the first stage not yet completed whose trigger the pnl
has reached. -/
def firstEligibleStage (stages : List (ℕ × TakeProfitStage)) (completed : List ℕ)
    (pnl : ℚ) : Option ℕ :=
  (stages.find? (fun e => !completed.contains e.1 && decide (e.2.trigger ≤ pnl))).map
    (fun e => e.1)

/-- Modelled from the spec, §4.1 steps 5-6 (the checks that follow the
two capital-protection rules): peak drawdown, then partial take-profit,
else no action. -/
def evaluateProfitChecks (params : StrategyParams) (pos : EnginePosition)
    (pnl peak : ℚ) : ProtectAction :=
  if params.peakDrawdownProtection ≤ peak - pnl then .PeakDrawdownClose
  else
    match firstEligibleStage (tpStages params) pos.completedStages pnl with
    | some i => .PartialClose i
    | none => .NoAction

/-- Modelled from the spec, §4.1: one evaluation tick in fixed priority
order — shadow mode and a consumed one-tick override emit `NoAction`;
otherwise hard stop-loss, then trailing stop at the locked floor, then
peak drawdown, then one partial take-profit stage, else `NoAction`.
The peak used is `max(peakPnlPercent, pnlPercent)` (step 2 happens
regardless of which branch fires). -/
def evaluate (params : StrategyParams) (pos : EnginePosition) (currentPrice : ℚ)
    (overrideTick : Bool) : ProtectAction :=
  if !params.enableCodeLevelProtection then .NoAction
  else if overrideTick && params.allowAiOverrideProtection then .NoAction
  else
    let pnl := pnlPercent pos.side pos.entryPrice currentPrice pos.leverage
    let peak := max pos.peakPnlPercent pnl
    if pnl ≤ stopLossThreshold params.stopLoss pos.leverage then .HardStopLoss
    else
      match trailingFloor (trailingLevels params) peak with
      | some f =>
          if pnl ≤ f then .TrailingStopClose f
          else evaluateProfitChecks params pos pnl peak
      | none => evaluateProfitChecks params pos pnl peak

/-- Modelled from the spec, §4.1 step 2: the peak high-water mark after
observing a sequence of pnl values. -/
def runPeak (peak0 : ℚ) (pnls : List ℚ) : ℚ :=
  pnls.foldl max peak0

/-- Modelled from the spec, §5: the deterministic dedup key an action
carries — symbol, stage-or-terminal marker, position generation. -/
structure DedupKey where
  symbol : String
  marker : String
  generation : ℕ
deriving DecidableEq, Repr

/-- Modelled from the spec, §4.2: what execution accumulates — the dedup
keys already processed, the submitted orders and the appended trade
records (each tagged with the key that produced it). -/
structure ExecutorState where
  processedKeys : List DedupKey
  submittedOrders : List DedupKey
  tradeRecords : List DedupKey
deriving DecidableEq, Repr

/-- The executor state before any delivery. -/
def ExecutorState.start : ExecutorState := ⟨[], [], []⟩

/-- Modelled from the spec, §4.2: executing one delivered action — a key
already processed is dropped (idempotent replay); a fresh key submits
exactly one order and appends exactly one trade record. -/
def executeAction (s : ExecutorState) (k : DedupKey) : ExecutorState :=
  if k ∈ s.processedKeys then s
  else ⟨k :: s.processedKeys, s.submittedOrders ++ [k], s.tradeRecords ++ [k]⟩

/-- Deliver a sequence of actions (with arbitrary repetition) in order. -/
def deliverAll (s : ExecutorState) (ks : List DedupKey) : ExecutorState :=
  ks.foldl executeAction s

/-- The rational value of a JS number (0 for NaN; only applied below to
numbers known not to be NaN). -/
def qOf : JSNum → ℚ
  | .nan => 0
  | .num q => q

/-- One first-pass loop iteration applied to a row (the body of the line
54 loop as a function of the accumulated record). -/
def applyRow (st : TradeStats) (t : TradeRow) : TradeStats :=
  updateStats st t.side (parsedPnl t) (parsedFee t)

/-- The record accumulated by running the first-pass loop body over a
row list. -/
def statsFrom (st : TradeStats) (l : List TradeRow) : TradeStats :=
  l.foldl applyRow st

/-- Sum of the winning pnl values of a row list. -/
def winSumQ (l : List TradeRow) : ℚ :=
  ((l.filter (fun t => isWinJ (parsedPnl t))).map (fun t => qOf (parsedPnl t))).sum

/-- Sum of the absolute losing pnl values of a row list. -/
def lossSumQ (l : List TradeRow) : ℚ :=
  ((l.filter (fun t => isLossJ (parsedPnl t))).map (fun t => |qOf (parsedPnl t)|)).sum

/-- Order on optional trailing floors: no floor is below any floor, and
floors compare by value.  `optFloorLE a b` says the floor `b` is at
least as tight as `a`. -/
def optFloorLE : Option ℚ → Option ℚ → Prop
  | none, _ => True
  | some _, none => False
  | some a, some b => a ≤ b

/-- The exchange snapshot of the spec's reconciliation example:
one BTC position, quantity 5, long. -/
def btcExchangeSnapshot : List ExchangePosition :=
  [{ symbol := "BTC", size := 5, side := .long, entryPrice := 50000,
     markPrice := 50100, leverage := 2, unrealizedPnl := 10 }]

/-- The ledger snapshot of the spec's reconciliation example: one BTC
position with the same quantity and leverage but side short. -/
def btcLedgerSnapshot : List DbPosition :=
  [{ symbol := "BTC", quantity := 5, entryPrice := 50000,
     currentPrice := 50100, leverage := 2, side := .short,
     openedAt := "2025-01-01T00:00:00Z" }]

/-- A small concrete trade log used to instantiate the statistics
theorems: three BTC closes (a win of 5.5, a 0.005 break-even, a loss of
2.5) and one ETH losing close. -/
def sampleRows : List TradeRow :=
  [{ symbol := "BTC", side := "long", pnl := .vstr "5.5", fee := .vstr "0.1" },
   { symbol := "BTC", side := "short", pnl := .vnum (1/200), fee := .vnull },
   { symbol := "BTC", side := "long", pnl := .vstr "-2.5", fee := .vnum (1/10) },
   { symbol := "ETH", side := "short", pnl := .vnum (-3), fee := .vnum 0 }]

/-- The BTC record the analysis produces on `sampleRows`. -/
def sampleStatsBTC : TradeStats :=
  finalizeStats sampleRows
    (statsFrom (initStats "BTC") (sampleRows.filter (fun t => decide (t.symbol = "BTC"))))

/-! ### Association-list lemmas -/

theorem lookupAssoc_cons {κ α : Type} [DecidableEq κ] (e : κ × α) (m : List (κ × α)) (k : κ) :
    lookupAssoc (e :: m) k = if e.1 = k then some e.2 else lookupAssoc m k := by
  by_cases h : e.1 = k <;> simp [lookupAssoc, List.find?, h]

theorem lookupAssoc_isSome_iff {κ α : Type} [DecidableEq κ] (m : List (κ × α)) (k : κ) :
    (lookupAssoc m k).isSome ↔ m.any (fun e => decide (e.1 = k)) = true := by
  simp [lookupAssoc, List.find?_isSome, List.any_eq_true]

theorem lookupAssoc_mapUpdate_same {κ α : Type} [DecidableEq κ] (m : List (κ × α))
    (k : κ) (u : α → α) :
    lookupAssoc (m.map (fun e => if e.1 = k then (e.1, u e.2) else e)) k
      = (lookupAssoc m k).map u := by
  induction m with
  | nil => rfl
  | cons e m ih =>
      by_cases h : e.1 = k <;>
        simp [List.map_cons, lookupAssoc_cons, h, ih]

theorem lookupAssoc_mapUpdate_other {κ α : Type} [DecidableEq κ] (m : List (κ × α))
    (k k' : κ) (u : α → α) (hk : k' ≠ k) :
    lookupAssoc (m.map (fun e => if e.1 = k then (e.1, u e.2) else e)) k'
      = lookupAssoc m k' := by
  induction m with
  | nil => rfl
  | cons e m ih =>
      by_cases h : e.1 = k
      · have h2 : e.1 ≠ k' := by rw [h]; exact fun hh => hk hh.symm
        simp [List.map_cons, lookupAssoc_cons, h, h2, ih, Ne.symm hk]
      · simp [List.map_cons, lookupAssoc_cons, h, ih]

theorem lookupAssoc_bump_same {κ α : Type} [DecidableEq κ] (m : List (κ × α))
    (k : κ) (init : α) (u : α → α) :
    lookupAssoc (bumpAssoc m k init u) k = some (u ((lookupAssoc m k).getD init)) := by
  unfold bumpAssoc
  by_cases h : m.any (fun e => decide (e.1 = k)) = true
  · rw [if_pos h, lookupAssoc_mapUpdate_same]
    obtain ⟨v, hv⟩ := Option.isSome_iff_exists.mp ((lookupAssoc_isSome_iff m k).mpr h)
    simp [hv]
  · rw [if_neg h]
    have hnone : lookupAssoc m k = none := by
      by_contra hc
      exact h ((lookupAssoc_isSome_iff m k).mp (Option.isSome_iff_ne_none.mpr hc))
    rw [lookupAssoc, List.find?_append]
    have : m.find? (fun e => decide (e.1 = k)) = none := by
      have := hnone
      simpa [lookupAssoc] using this
    simp [this, List.find?, hnone]

theorem lookupAssoc_bump_other {κ α : Type} [DecidableEq κ] (m : List (κ × α))
    (k k' : κ) (init : α) (u : α → α) (hk : k' ≠ k) :
    lookupAssoc (bumpAssoc m k init u) k' = lookupAssoc m k' := by
  unfold bumpAssoc
  by_cases h : m.any (fun e => decide (e.1 = k)) = true
  · rw [if_pos h, lookupAssoc_mapUpdate_other m k k' u hk]
  · rw [if_neg h, lookupAssoc, List.find?_append]
    have h2 : (k, u init).1 ≠ k' := fun hh => hk hh.symm
    cases hf : m.find? (fun e => decide (e.1 = k')) <;>
      simp [lookupAssoc, hf, List.find?, h2, fun hh : k = k' => hk hh.symm]

theorem keys_bumpAssoc_nodup {κ α : Type} [DecidableEq κ] (m : List (κ × α))
    (k : κ) (init : α) (u : α → α) (hn : (m.map Prod.fst).Nodup) :
    ((bumpAssoc m k init u).map Prod.fst).Nodup := by
  unfold bumpAssoc
  by_cases h : m.any (fun e => decide (e.1 = k)) = true
  · rw [if_pos h]
    have : (m.map (fun e => if e.1 = k then (e.1, u e.2) else e)).map Prod.fst
        = m.map Prod.fst := by
      rw [List.map_map]
      refine List.map_congr_left ?_
      intro e _
      by_cases he : e.1 = k <;> simp [he]
    rw [this]; exact hn
  · rw [if_neg h]
    have hnotin : k ∉ m.map Prod.fst := by
      intro hmem
      obtain ⟨e, he, hek⟩ := List.mem_map.mp hmem
      exact h (List.any_eq_true.mpr ⟨e, he, by simp [hek]⟩)
    simp only [List.map_append, List.map_cons, List.map_nil]
    exact List.Nodup.append hn (List.nodup_singleton k)
      (by simpa [List.disjoint_singleton] using hnotin)

theorem mapUpdate_id {κ α : Type} [DecidableEq κ] (m : List (κ × α)) (k : κ) (u : α → α)
    (h : ∀ x ∈ m, x.1 ≠ k) :
    m.map (fun e => if e.1 = k then (e.1, u e.2) else e) = m := by
  induction m with
  | nil => rfl
  | cons e m ih =>
      simp only [List.map_cons, if_neg (h e (List.mem_cons_self e m))]
      rw [ih (fun x hx => h x (List.mem_cons_of_mem e hx))]

theorem mem_iff_lookupAssoc {κ α : Type} [DecidableEq κ] (m : List (κ × α))
    (hn : (m.map Prod.fst).Nodup) (k : κ) (v : α) :
    (k, v) ∈ m ↔ lookupAssoc m k = some v := by
  induction m with
  | nil => simp [lookupAssoc]
  | cons e m ih =>
      have hn2 := (List.nodup_cons.mp hn).2
      by_cases h : e.1 = k
      · rw [lookupAssoc_cons, if_pos h]
        constructor
        · intro hmem
          rcases List.mem_cons.mp hmem with heq | hmem2
          · rw [← heq]
          · exfalso
            have : k ∈ m.map Prod.fst := List.mem_map.mpr ⟨(k, v), hmem2, rfl⟩
            rw [← h] at this
            exact (List.nodup_cons.mp hn).1 this
        · intro hv
          have : e = (k, v) := Prod.ext h (Option.some_injective _ hv)
          rw [← this]; exact List.mem_cons_self e m
      · rw [lookupAssoc_cons, if_neg h]
        rw [← ih hn2]
        constructor
        · intro hmem
          rcases List.mem_cons.mp hmem with heq | hmem2
          · exact absurd (congrArg Prod.fst heq.symm) h
          · exact hmem2
        · exact fun hmem2 => List.mem_cons_of_mem e hmem2

theorem sum_mapUpdate {κ α : Type} [DecidableEq κ] (f : α → ℕ) (d : ℕ) (k : κ) (u : α → α)
    (hd : ∀ v, f (u v) = f v + d) :
    ∀ m : List (κ × α), (m.map Prod.fst).Nodup →
      m.any (fun e => decide (e.1 = k)) = true →
      ((m.map (fun e => if e.1 = k then (e.1, u e.2) else e)).map (fun e => f e.2)).sum
        = (m.map (fun e => f e.2)).sum + d := by
  intro m
  induction m with
  | nil => simp
  | cons e m ih =>
      intro hn ha
      by_cases h : e.1 = k
      · have htail : ∀ x ∈ m, x.1 ≠ k := by
          intro x hx hxk
          apply (List.nodup_cons.mp hn).1
          rw [h]
          exact List.mem_map.mpr ⟨x, hx, hxk⟩
        rw [List.map_cons, if_pos h, mapUpdate_id m k u htail]
        simp [hd e.2]
        omega
      · have ha2 : m.any (fun e => decide (e.1 = k)) = true := by
          rcases List.any_eq_true.mp ha with ⟨x, hx, hxk⟩
          rcases List.mem_cons.mp hx with rfl | hx2
          · exact absurd (of_decide_eq_true hxk) h
          · exact List.any_eq_true.mpr ⟨x, hx2, hxk⟩
        rw [List.map_cons, if_neg h]
        simp only [List.map_cons, List.sum_cons]
        rw [ih (List.nodup_cons.mp hn).2 ha2]
        omega

theorem sum_bumpAssoc {κ α : Type} [DecidableEq κ] (f : α → ℕ) (d : ℕ) (k : κ)
    (init : α) (u : α → α) (hf0 : f init = 0) (hd : ∀ v, f (u v) = f v + d)
    (m : List (κ × α)) (hn : (m.map Prod.fst).Nodup) :
    ((bumpAssoc m k init u).map (fun e => f e.2)).sum
      = (m.map (fun e => f e.2)).sum + d := by
  unfold bumpAssoc
  by_cases h : m.any (fun e => decide (e.1 = k)) = true
  · rw [if_pos h]
    exact sum_mapUpdate f d k u hd m hn h
  · rw [if_neg h]
    simp [hd init, hf0]

theorem lookupAssoc_foldl_bump {κ α ρ : Type} [DecidableEq κ]
    (key : ρ → κ) (init : κ → α) (upd : ρ → α → α) :
    ∀ (rows : List ρ) (m : List (κ × α)) (k : κ),
      lookupAssoc (rows.foldl (fun m t => bumpAssoc m (key t) (init (key t)) (upd t)) m) k
        = if rows.any (fun t => decide (key t = k)) = true ∨ (lookupAssoc m k).isSome
          then some ((rows.filter (fun t => decide (key t = k))).foldl
                       (fun a t => upd t a) ((lookupAssoc m k).getD (init k)))
          else none := by
  intro rows
  induction rows with
  | nil =>
      intro m k
      cases h : lookupAssoc m k <;> simp [h]
  | cons t rows ih =>
      intro m k
      simp only [List.foldl_cons]
      rw [ih]
      by_cases hk : key t = k
      · subst hk
        have h1 := lookupAssoc_bump_same m (key t) (init (key t)) (upd t)
        simp [h1, List.filter_cons]
      · have h1 := lookupAssoc_bump_other m (key t) k (init (key t)) (upd t)
          (fun hh => hk hh.symm)
        simp [h1, List.filter_cons, hk]

theorem keys_foldl_bump_nodup {κ α ρ : Type} [DecidableEq κ]
    (key : ρ → κ) (init : κ → α) (upd : ρ → α → α) :
    ∀ (rows : List ρ) (m : List (κ × α)), (m.map Prod.fst).Nodup →
      (((rows.foldl (fun m t => bumpAssoc m (key t) (init (key t)) (upd t)) m)).map
          Prod.fst).Nodup := by
  intro rows
  induction rows with
  | nil => intro m hn; exact hn
  | cons t rows ih =>
      intro m hn
      simp only [List.foldl_cons]
      exact ih _ (keys_bumpAssoc_nodup m (key t) (init (key t)) (upd t) hn)

theorem sum_foldl_bump {κ α ρ : Type} [DecidableEq κ]
    (key : ρ → κ) (init : κ → α) (upd : ρ → α → α)
    (f : α → ℕ) (delta : ρ → ℕ) (hf0 : ∀ k, f (init k) = 0)
    (hd : ∀ t a, f (upd t a) = f a + delta t) :
    ∀ (rows : List ρ) (m : List (κ × α)), (m.map Prod.fst).Nodup →
      (((rows.foldl (fun m t => bumpAssoc m (key t) (init (key t)) (upd t)) m)).map
          (fun e => f e.2)).sum
        = (m.map (fun e => f e.2)).sum + (rows.map delta).sum := by
  intro rows
  induction rows with
  | nil => intro m _; simp
  | cons t rows ih =>
      intro m hn
      simp only [List.foldl_cons, List.map_cons, List.sum_cons]
      rw [ih _ (keys_bumpAssoc_nodup m (key t) (init (key t)) (upd t) hn)]
      rw [sum_bumpAssoc f (delta t) (key t) (init (key t)) (upd t) (hf0 (key t))
        (fun a => hd t a) m hn]
      omega

/-! ### Classification and single-step update lemmas -/

theorem isWinJ_num_iff (q : ℚ) : isWinJ (.num q) = true ↔ 1/100 < q := by
  simp [isWinJ, jsGt]

theorem isLossJ_num_iff (q : ℚ) : isLossJ (.num q) = true ↔ q < -(1/100) := by
  simp [isLossJ, jsLt]

theorem isWinJ_nan : isWinJ .nan = false := rfl

theorem isLossJ_nan : isLossJ .nan = false := rfl

theorem isWinJ_eq_num (p : JSNum) (h : isWinJ p = true) : p = .num (qOf p) := by
  cases p with
  | nan => exact absurd h (by simp [isWinJ_nan])
  | num q => rfl

theorem isLossJ_eq_num (p : JSNum) (h : isLossJ p = true) : p = .num (qOf p) := by
  cases p with
  | nan => exact absurd h (by simp [isLossJ_nan])
  | num q => rfl

theorem not_isWinJ_and_isLossJ (p : JSNum) (hw : isWinJ p = true) (hl : isLossJ p = true) :
    False := by
  cases p with
  | nan => simp [isWinJ_nan] at hw
  | num q =>
      rw [isWinJ_num_iff] at hw
      rw [isLossJ_num_iff] at hl
      linarith

theorem updateStats_symbol (st : TradeStats) (side : String) (pnl fee : JSNum) :
    (updateStats st side pnl fee).symbol = st.symbol := by
  unfold updateStats
  by_cases hw : isWinJ pnl = true <;> by_cases hl : isLossJ pnl = true <;>
    by_cases h1 : side = "long" <;> by_cases h2 : side = "short" <;>
      simp [hw, hl, h1, h2]

theorem updateStats_totalTrades (st : TradeStats) (side : String) (pnl fee : JSNum) :
    (updateStats st side pnl fee).totalTrades = st.totalTrades + 1 := by
  unfold updateStats
  by_cases hw : isWinJ pnl = true <;> by_cases hl : isLossJ pnl = true <;>
    by_cases h1 : side = "long" <;> by_cases h2 : side = "short" <;>
      simp [hw, hl, h1, h2]

theorem updateStats_winTrades (st : TradeStats) (side : String) (pnl fee : JSNum) :
    (updateStats st side pnl fee).winTrades
      = st.winTrades + (if isWinJ pnl = true then 1 else 0) := by
  unfold updateStats
  by_cases hw : isWinJ pnl = true <;> by_cases hl : isLossJ pnl = true <;>
    by_cases h1 : side = "long" <;> by_cases h2 : side = "short" <;>
      simp [hw, hl, h1, h2]

theorem updateStats_lossTrades (st : TradeStats) (side : String) (pnl fee : JSNum) :
    (updateStats st side pnl fee).lossTrades
      = st.lossTrades + (if isLossJ pnl = true then 1 else 0) := by
  unfold updateStats
  by_cases hw : isWinJ pnl = true <;> by_cases hl : isLossJ pnl = true <;>
    by_cases h1 : side = "long" <;> by_cases h2 : side = "short" <;>
      first
      | exact (not_isWinJ_and_isLossJ pnl hw hl).elim
      | simp [hw, hl, h1, h2]

theorem updateStats_breakEvenTrades (st : TradeStats) (side : String) (pnl fee : JSNum) :
    (updateStats st side pnl fee).breakEvenTrades
      = st.breakEvenTrades
        + (if isWinJ pnl = false ∧ isLossJ pnl = false then 1 else 0) := by
  unfold updateStats
  by_cases hw : isWinJ pnl = true <;> by_cases hl : isLossJ pnl = true <;>
    by_cases h1 : side = "long" <;> by_cases h2 : side = "short" <;>
      simp [hw, hl, h1, h2]

theorem updateStats_longTrades (st : TradeStats) (side : String) (pnl fee : JSNum) :
    (updateStats st side pnl fee).longTrades
      = st.longTrades + (if side = "long" then 1 else 0) := by
  unfold updateStats
  by_cases hw : isWinJ pnl = true <;> by_cases hl : isLossJ pnl = true <;>
    by_cases h1 : side = "long" <;> by_cases h2 : side = "short" <;>
      simp [hw, hl, h1, h2]

theorem updateStats_shortTrades (st : TradeStats) (side : String) (pnl fee : JSNum) :
    (updateStats st side pnl fee).shortTrades
      = st.shortTrades + (if side = "short" then 1 else 0) := by
  unfold updateStats
  by_cases hw : isWinJ pnl = true <;> by_cases hl : isLossJ pnl = true <;>
    by_cases h1 : side = "long" <;> by_cases h2 : side = "short" <;>
      first
      | exact absurd (h1.symm.trans h2) (by decide)
      | simp [hw, hl, h1, h2]

theorem updateStats_totalPnl (st : TradeStats) (side : String) (pnl fee : JSNum) :
    (updateStats st side pnl fee).totalPnl = jsAdd st.totalPnl pnl := by
  unfold updateStats
  by_cases hw : isWinJ pnl = true <;> by_cases hl : isLossJ pnl = true <;>
    by_cases h1 : side = "long" <;> by_cases h2 : side = "short" <;>
      simp [hw, hl, h1, h2]

theorem updateStats_netPnl (st : TradeStats) (side : String) (pnl fee : JSNum) :
    (updateStats st side pnl fee).netPnl = jsAdd st.netPnl pnl := by
  unfold updateStats
  by_cases hw : isWinJ pnl = true <;> by_cases hl : isLossJ pnl = true <;>
    by_cases h1 : side = "long" <;> by_cases h2 : side = "short" <;>
      simp [hw, hl, h1, h2]

theorem updateStats_avgWin (st : TradeStats) (side : String) (pnl fee : JSNum) :
    (updateStats st side pnl fee).avgWin
      = if isWinJ pnl = true then jsAdd st.avgWin pnl else st.avgWin := by
  unfold updateStats
  by_cases hw : isWinJ pnl = true <;> by_cases hl : isLossJ pnl = true <;>
    by_cases h1 : side = "long" <;> by_cases h2 : side = "short" <;>
      simp [hw, hl, h1, h2]

theorem updateStats_avgLoss (st : TradeStats) (side : String) (pnl fee : JSNum) :
    (updateStats st side pnl fee).avgLoss
      = if isLossJ pnl = true then jsAdd st.avgLoss (jsAbs pnl) else st.avgLoss := by
  unfold updateStats
  by_cases hw : isWinJ pnl = true <;> by_cases hl : isLossJ pnl = true <;>
    by_cases h1 : side = "long" <;> by_cases h2 : side = "short" <;>
      first
      | exact (not_isWinJ_and_isLossJ pnl hw hl).elim
      | simp [hw, hl, h1, h2]

theorem updateStats_largestWin (st : TradeStats) (side : String) (pnl fee : JSNum) :
    (updateStats st side pnl fee).largestWin
      = if isWinJ pnl = true then
          (if jsGt pnl st.largestWin = true then pnl else st.largestWin)
        else st.largestWin := by
  unfold updateStats
  by_cases hw : isWinJ pnl = true <;> by_cases hl : isLossJ pnl = true <;>
    by_cases h1 : side = "long" <;> by_cases h2 : side = "short" <;>
      simp [hw, hl, h1, h2]

theorem updateStats_largestLoss (st : TradeStats) (side : String) (pnl fee : JSNum) :
    (updateStats st side pnl fee).largestLoss
      = if isLossJ pnl = true then
          (if jsGt (jsAbs pnl) (jsAbs st.largestLoss) = true then pnl else st.largestLoss)
        else st.largestLoss := by
  unfold updateStats
  by_cases hw : isWinJ pnl = true <;> by_cases hl : isLossJ pnl = true <;>
    by_cases h1 : side = "long" <;> by_cases h2 : side = "short" <;>
      first
      | exact (not_isWinJ_and_isLossJ pnl hw hl).elim
      | simp [hw, hl, h1, h2]

/-! ### Accumulated first-pass characterisation -/

theorem jsAdd_num_assoc (a : JSNum) (b c : ℚ) :
    jsAdd (jsAdd a (.num b)) (.num c) = jsAdd a (.num (b + c)) := by
  cases a <;> simp [jsAdd] <;> ring

theorem winSumQ_nil : winSumQ [] = 0 := rfl

theorem lossSumQ_nil : lossSumQ [] = 0 := rfl

theorem winSumQ_cons (t : TradeRow) (l : List TradeRow) :
    winSumQ (t :: l)
      = (if isWinJ (parsedPnl t) = true then qOf (parsedPnl t) else 0) + winSumQ l := by
  by_cases h : isWinJ (parsedPnl t) = true <;>
    simp [winSumQ, List.filter_cons, h]

theorem lossSumQ_cons (t : TradeRow) (l : List TradeRow) :
    lossSumQ (t :: l)
      = (if isLossJ (parsedPnl t) = true then |qOf (parsedPnl t)| else 0) + lossSumQ l := by
  by_cases h : isLossJ (parsedPnl t) = true <;>
    simp [lossSumQ, List.filter_cons, h]

theorem lossSumQ_nonneg (l : List TradeRow) : 0 ≤ lossSumQ l := by
  induction l with
  | nil => simp [lossSumQ_nil]
  | cons t l ih =>
      rw [lossSumQ_cons]
      have : (0:ℚ) ≤ if isLossJ (parsedPnl t) = true then |qOf (parsedPnl t)| else 0 := by
        by_cases h : isLossJ (parsedPnl t) = true <;> simp [h, abs_nonneg]
      linarith

theorem lossSumQ_pos (l : List TradeRow)
    (h : 0 < l.countP (fun t => isLossJ (parsedPnl t))) : 0 < lossSumQ l := by
  induction l with
  | nil => simp at h
  | cons t l ih =>
      rw [lossSumQ_cons]
      by_cases ht : isLossJ (parsedPnl t) = true
      · have h1 : qOf (parsedPnl t) < -(1/100) := by
          have := isLossJ_eq_num (parsedPnl t) ht
          rw [this, isLossJ_num_iff] at ht
          exact ht
        have h2 : 0 < |qOf (parsedPnl t)| := abs_pos.mpr (by linarith)
        have h3 := lossSumQ_nonneg l
        rw [if_pos ht]
        linarith
      · rw [List.countP_cons, if_neg (by simpa using ht)] at h
        have := ih (by simpa using h)
        rw [if_neg ht]
        linarith

theorem statsFrom_nil (st : TradeStats) : statsFrom st [] = st := rfl

theorem statsFrom_cons (st : TradeStats) (t : TradeRow) (l : List TradeRow) :
    statsFrom st (t :: l) = statsFrom (applyRow st t) l := rfl

theorem statsFrom_symbol (l : List TradeRow) :
    ∀ st : TradeStats, (statsFrom st l).symbol = st.symbol := by
  induction l with
  | nil => intro st; rfl
  | cons t l ih =>
      intro st
      rw [statsFrom_cons, ih]
      exact updateStats_symbol st t.side (parsedPnl t) (parsedFee t)

theorem statsFrom_totalTrades (l : List TradeRow) :
    ∀ st : TradeStats, (statsFrom st l).totalTrades = st.totalTrades + l.length := by
  induction l with
  | nil => intro st; simp [statsFrom_nil]
  | cons t l ih =>
      intro st
      rw [statsFrom_cons, ih, applyRow, updateStats_totalTrades]
      simp [List.length_cons]
      omega

theorem statsFrom_winTrades (l : List TradeRow) :
    ∀ st : TradeStats, (statsFrom st l).winTrades
      = st.winTrades + l.countP (fun t => isWinJ (parsedPnl t)) := by
  induction l with
  | nil => intro st; simp [statsFrom_nil]
  | cons t l ih =>
      intro st
      rw [statsFrom_cons, ih, applyRow, updateStats_winTrades, List.countP_cons]
      by_cases h : isWinJ (parsedPnl t) = true <;> simp [h] <;> omega

theorem statsFrom_lossTrades (l : List TradeRow) :
    ∀ st : TradeStats, (statsFrom st l).lossTrades
      = st.lossTrades + l.countP (fun t => isLossJ (parsedPnl t)) := by
  induction l with
  | nil => intro st; simp [statsFrom_nil]
  | cons t l ih =>
      intro st
      rw [statsFrom_cons, ih, applyRow, updateStats_lossTrades, List.countP_cons]
      by_cases h : isLossJ (parsedPnl t) = true <;> simp [h] <;> omega

theorem statsFrom_breakEvenTrades (l : List TradeRow) :
    ∀ st : TradeStats, (statsFrom st l).breakEvenTrades
      = st.breakEvenTrades
        + l.countP (fun t => !isWinJ (parsedPnl t) && !isLossJ (parsedPnl t)) := by
  induction l with
  | nil => intro st; simp [statsFrom_nil]
  | cons t l ih =>
      intro st
      rw [statsFrom_cons, ih, applyRow, updateStats_breakEvenTrades, List.countP_cons]
      by_cases hw : isWinJ (parsedPnl t) = true <;>
        by_cases hl : isLossJ (parsedPnl t) = true <;>
          simp [hw, hl] <;> omega

theorem statsFrom_longTrades (l : List TradeRow) :
    ∀ st : TradeStats, (statsFrom st l).longTrades
      = st.longTrades + l.countP (fun t => decide (t.side = "long")) := by
  induction l with
  | nil => intro st; simp [statsFrom_nil]
  | cons t l ih =>
      intro st
      rw [statsFrom_cons, ih, applyRow, updateStats_longTrades, List.countP_cons]
      by_cases h : t.side = "long" <;> simp [h] <;> omega

theorem statsFrom_shortTrades (l : List TradeRow) :
    ∀ st : TradeStats, (statsFrom st l).shortTrades
      = st.shortTrades + l.countP (fun t => decide (t.side = "short")) := by
  induction l with
  | nil => intro st; simp [statsFrom_nil]
  | cons t l ih =>
      intro st
      rw [statsFrom_cons, ih, applyRow, updateStats_shortTrades, List.countP_cons]
      by_cases h : t.side = "short" <;> simp [h] <;> omega

theorem statsFrom_avgWin (l : List TradeRow) :
    ∀ st : TradeStats, (statsFrom st l).avgWin = jsAdd st.avgWin (.num (winSumQ l)) := by
  induction l with
  | nil =>
      intro st
      rw [statsFrom_nil, winSumQ_nil]
      cases h : st.avgWin <;> simp [jsAdd]
  | cons t l ih =>
      intro st
      rw [statsFrom_cons, ih, applyRow, updateStats_avgWin, winSumQ_cons]
      by_cases h : isWinJ (parsedPnl t) = true
      · rw [if_pos h, if_pos h]
        have hnum := isWinJ_eq_num (parsedPnl t) h
        rw [hnum, jsAdd_num_assoc]
        simp [qOf]
      · rw [if_neg h, if_neg h, zero_add]

theorem statsFrom_avgLoss (l : List TradeRow) :
    ∀ st : TradeStats, (statsFrom st l).avgLoss = jsAdd st.avgLoss (.num (lossSumQ l)) := by
  induction l with
  | nil =>
      intro st
      rw [statsFrom_nil, lossSumQ_nil]
      cases h : st.avgLoss <;> simp [jsAdd]
  | cons t l ih =>
      intro st
      rw [statsFrom_cons, ih, applyRow, updateStats_avgLoss, lossSumQ_cons]
      by_cases h : isLossJ (parsedPnl t) = true
      · rw [if_pos h, if_pos h]
        have hnum := isLossJ_eq_num (parsedPnl t) h
        rw [hnum]
        simp only [jsAbs]
        rw [jsAdd_num_assoc]
        simp [qOf]
      · rw [if_neg h, if_neg h, zero_add]

/-! ### The symbol map built by the first pass -/

theorem lookupAssoc_insertStats (rows : List TradeRow) (s : String) :
    lookupAssoc (insertStats rows) s
      = if rows.any (fun t => decide (t.symbol = s)) = true
        then some (statsFrom (initStats s) (rows.filter (fun t => decide (t.symbol = s))))
        else none := by
  have h := lookupAssoc_foldl_bump (fun t : TradeRow => t.symbol) (fun s => initStats s)
      (fun t st => updateStats st t.side (parsedPnl t) (parsedFee t)) rows [] s
  simp only [show lookupAssoc ([] : List (String × TradeStats)) s = none from rfl,
    Option.isSome_none, Bool.false_eq_true, or_false, Option.getD_none] at h
  exact h

theorem keys_insertStats_nodup (rows : List TradeRow) :
    ((insertStats rows).map Prod.fst).Nodup :=
  keys_foldl_bump_nodup (fun t : TradeRow => t.symbol) (fun s => initStats s)
    (fun t st => updateStats st t.side (parsedPnl t) (parsedFee t)) rows [] (by simp)

theorem sum_map_ite_one {ρ : Type} (p : ρ → Bool) (rows : List ρ) :
    (rows.map (fun t => if p t = true then 1 else 0)).sum = rows.countP p := by
  induction rows with
  | nil => rfl
  | cons t rows ih =>
      by_cases h : p t = true <;>
        simp only [List.map_cons, List.sum_cons, List.countP_cons, h, if_pos, if_neg,
          ih, Bool.false_eq_true, ite_true, ite_false] <;> omega

theorem sum_insertStats_winTrades (rows : List TradeRow) :
    ((insertStats rows).map (fun e => e.2.winTrades)).sum
      = rows.countP (fun t => isWinJ (parsedPnl t)) := by
  have h := sum_foldl_bump (fun t : TradeRow => t.symbol) (fun s => initStats s)
      (fun t st => updateStats st t.side (parsedPnl t) (parsedFee t))
      (fun st => st.winTrades)
      (fun t => if isWinJ (parsedPnl t) = true then 1 else 0)
      (fun _ => rfl)
      (fun t a => updateStats_winTrades a t.side (parsedPnl t) (parsedFee t))
      rows [] (by simp)
  simp only [List.map_nil, List.sum_nil, zero_add] at h
  exact h.trans (sum_map_ite_one _ rows)

theorem sum_insertStats_lossTrades (rows : List TradeRow) :
    ((insertStats rows).map (fun e => e.2.lossTrades)).sum
      = rows.countP (fun t => isLossJ (parsedPnl t)) := by
  have h := sum_foldl_bump (fun t : TradeRow => t.symbol) (fun s => initStats s)
      (fun t st => updateStats st t.side (parsedPnl t) (parsedFee t))
      (fun st => st.lossTrades)
      (fun t => if isLossJ (parsedPnl t) = true then 1 else 0)
      (fun _ => rfl)
      (fun t a => updateStats_lossTrades a t.side (parsedPnl t) (parsedFee t))
      rows [] (by simp)
  simp only [List.map_nil, List.sum_nil, zero_add] at h
  exact h.trans (sum_map_ite_one _ rows)

/-! ### Second-pass projections -/

theorem finalizeStats_symbol (rows : List TradeRow) (st : TradeStats) :
    (finalizeStats rows st).symbol = st.symbol := rfl

theorem finalizeStats_totalTrades (rows : List TradeRow) (st : TradeStats) :
    (finalizeStats rows st).totalTrades = st.totalTrades := rfl

theorem finalizeStats_winTrades (rows : List TradeRow) (st : TradeStats) :
    (finalizeStats rows st).winTrades = st.winTrades := rfl

theorem finalizeStats_lossTrades (rows : List TradeRow) (st : TradeStats) :
    (finalizeStats rows st).lossTrades = st.lossTrades := rfl

theorem finalizeStats_breakEvenTrades (rows : List TradeRow) (st : TradeStats) :
    (finalizeStats rows st).breakEvenTrades = st.breakEvenTrades := rfl

theorem finalizeStats_longTrades (rows : List TradeRow) (st : TradeStats) :
    (finalizeStats rows st).longTrades = st.longTrades := rfl

theorem finalizeStats_shortTrades (rows : List TradeRow) (st : TradeStats) :
    (finalizeStats rows st).shortTrades = st.shortTrades := rfl

theorem finalizeStats_winRate (rows : List TradeRow) (st : TradeStats) :
    (finalizeStats rows st).winRate
      = if st.totalTrades > 0 then JSNum.num ((st.winTrades : ℚ) / st.totalTrades * 100)
        else .num 0 := rfl

theorem finalizeStats_avgWin (rows : List TradeRow) (st : TradeStats) :
    (finalizeStats rows st).avgWin
      = if st.winTrades > 0 then jsDivNat st.avgWin st.winTrades else .num 0 := rfl

theorem finalizeStats_avgLoss (rows : List TradeRow) (st : TradeStats) :
    (finalizeStats rows st).avgLoss
      = if st.lossTrades > 0 then jsDivNat st.avgLoss st.lossTrades else .num 0 := rfl

theorem finalizeStats_profitFactor (rows : List TradeRow) (st : TradeStats) :
    (finalizeStats rows st).profitFactor
      = if jsGt (finalizeStats rows st).avgLoss (.num 0) = true
        then jsDiv (finalizeStats rows st).avgWin (finalizeStats rows st).avgLoss
        else .num 0 := rfl

theorem finalizeStats_longWinRate (rows : List TradeRow) (st : TradeStats) :
    (finalizeStats rows st).longWinRate
      = if st.longTrades > 0
        then JSNum.num ((countDirWins rows st.symbol "long" : ℚ) / st.longTrades * 100)
        else .num 0 := rfl

theorem finalizeStats_shortWinRate (rows : List TradeRow) (st : TradeStats) :
    (finalizeStats rows st).shortWinRate
      = if st.shortTrades > 0
        then JSNum.num ((countDirWins rows st.symbol "short" : ℚ) / st.shortTrades * 100)
        else .num 0 := rfl

theorem mem_analyzeStats (rows : List TradeRow) (s : String) (st : TradeStats) :
    (s, st) ∈ analyzeStats rows ↔
      (rows.any (fun t => decide (t.symbol = s)) = true ∧
       st = finalizeStats rows
              (statsFrom (initStats s) (rows.filter (fun t => decide (t.symbol = s))))) := by
  constructor
  · intro h
    obtain ⟨e, he, heq⟩ := List.mem_map.mp h
    have h1 : e.1 = s := congrArg Prod.fst heq
    have h2 : finalizeStats rows e.2 = st := congrArg Prod.snd heq
    have hm : (e.1, e.2) ∈ insertStats rows := he
    rw [mem_iff_lookupAssoc (insertStats rows) (keys_insertStats_nodup rows)] at hm
    rw [h1] at hm
    rw [lookupAssoc_insertStats] at hm
    by_cases ha : rows.any (fun t => decide (t.symbol = s)) = true
    · rw [if_pos ha] at hm
      refine ⟨ha, ?_⟩
      rw [← h2, Option.some_injective _ hm]
    · rw [if_neg ha] at hm
      exact absurd hm (by simp)
  · rintro ⟨ha, hst⟩
    have hm : lookupAssoc (insertStats rows) s
        = some (statsFrom (initStats s) (rows.filter (fun t => decide (t.symbol = s)))) := by
      rw [lookupAssoc_insertStats, if_pos ha]
    rw [← mem_iff_lookupAssoc (insertStats rows) (keys_insertStats_nodup rows)] at hm
    refine List.mem_map.mpr ⟨_, hm, ?_⟩
    rw [hst]

/-! ### Single-pass directional aggregation -/

theorem dirAgg_foldl (l : List TradeRow) :
    ∀ a0 : DirAgg,
      l.foldl (fun a t => DirAgg.mk (a.trades + 1)
          (a.wins + (if isWinJ (parsedPnl t) = true then 1 else 0))) a0
        = ⟨a0.trades + l.length, a0.wins + l.countP (fun t => isWinJ (parsedPnl t))⟩ := by
  induction l with
  | nil => intro a0; simp
  | cons t l ih =>
      intro a0
      simp only [List.foldl_cons, ih, List.length_cons, List.countP_cons]
      by_cases h : isWinJ (parsedPnl t) = true <;> simp [h] <;> omega

theorem spDir_eq (rows : List TradeRow) (k : String × String) :
    spDir rows k
      = ⟨rows.countP (fun t => decide ((t.symbol, t.side) = k)),
         rows.countP (fun t => decide ((t.symbol, t.side) = k) && isWinJ (parsedPnl t))⟩ := by
  have h := lookupAssoc_foldl_bump (fun t : TradeRow => (t.symbol, t.side))
      (fun _ => DirAgg.mk 0 0)
      (fun t a => DirAgg.mk (a.trades + 1)
        (a.wins + (if isWinJ (parsedPnl t) = true then 1 else 0)))
      rows [] k
  simp only [show lookupAssoc ([] : List ((String × String) × DirAgg)) k = none from rfl,
    Option.isSome_none, Bool.false_eq_true, or_false, Option.getD_none] at h
  by_cases ha : rows.any (fun t => decide ((t.symbol, t.side) = k)) = true
  · rw [if_pos ha] at h
    have h2 : spDir rows k
        = (rows.filter (fun t => decide ((t.symbol, t.side) = k))).foldl
            (fun a t => DirAgg.mk (a.trades + 1)
              (a.wins + (if isWinJ (parsedPnl t) = true then 1 else 0))) ⟨0, 0⟩ := by
      show (lookupAssoc (singlePassDir rows) k).getD ⟨0, 0⟩ = _
      rw [show lookupAssoc (singlePassDir rows) k
          = lookupAssoc (rows.foldl (fun m t => bumpAssoc m (t.symbol, t.side)
              (DirAgg.mk 0 0) (fun a => DirAgg.mk (a.trades + 1)
                (a.wins + (if isWinJ (parsedPnl t) = true then 1 else 0)))) []) k from rfl]
      rw [h]
      rfl
    rw [h2, dirAgg_foldl]
    have hl : (rows.filter (fun t => decide ((t.symbol, t.side) = k))).length
        = rows.countP (fun t => decide ((t.symbol, t.side) = k)) :=
      (List.countP_eq_length_filter _ _).symm
    have hw : (rows.filter (fun t => decide ((t.symbol, t.side) = k))).countP
          (fun t => isWinJ (parsedPnl t))
        = rows.countP (fun t => decide ((t.symbol, t.side) = k) && isWinJ (parsedPnl t)) := by
      rw [List.countP_filter]
      apply List.countP_congr
      intro t _
      constructor
      · intro hh
        simp only [Bool.and_eq_true] at hh ⊢
        exact ⟨hh.2, hh.1⟩
      · intro hh
        simp only [Bool.and_eq_true] at hh ⊢
        exact ⟨hh.2, hh.1⟩
    rw [hl, hw]
    simp
  · rw [if_neg ha] at h
    have h2 : spDir rows k = ⟨0, 0⟩ := by
      show (lookupAssoc (singlePassDir rows) k).getD ⟨0, 0⟩ = _
      rw [show lookupAssoc (singlePassDir rows) k
          = lookupAssoc (rows.foldl (fun m t => bumpAssoc m (t.symbol, t.side)
              (DirAgg.mk 0 0) (fun a => DirAgg.mk (a.trades + 1)
                (a.wins + (if isWinJ (parsedPnl t) = true then 1 else 0)))) []) k from rfl]
      rw [h]
      rfl
    have ha2 : ∀ t ∈ rows, (t.symbol, t.side) ≠ k := by
      intro t ht hk
      exact ha (List.any_eq_true.mpr ⟨t, ht, by simp [hk]⟩)
    have hz : rows.countP (fun t => decide ((t.symbol, t.side) = k)) = 0 := by
      rw [List.countP_eq_zero]
      intro t ht
      simpa using ha2 t ht
    have hz2 : rows.countP
        (fun t => decide ((t.symbol, t.side) = k) && isWinJ (parsedPnl t)) = 0 := by
      rw [List.countP_eq_zero]
      intro t ht
      simp only [Bool.and_eq_true, not_and, decide_eq_true_eq]
      intro hk
      exact absurd hk (ha2 t ht)
    rw [h2, hz, hz2]

/-! ### Per-symbol and overall characterisations -/

theorem analyzeStats_core (rows : List TradeRow) (s : String) (st : TradeStats)
    (h : (s, st) ∈ analyzeStats rows) :
    st.symbol = s
  ∧ st.totalTrades = (rows.filter (fun t => decide (t.symbol = s))).length
  ∧ 0 < st.totalTrades
  ∧ st.winTrades
      = (rows.filter (fun t => decide (t.symbol = s))).countP (fun t => isWinJ (parsedPnl t))
  ∧ st.lossTrades
      = (rows.filter (fun t => decide (t.symbol = s))).countP (fun t => isLossJ (parsedPnl t))
  ∧ st.breakEvenTrades
      = (rows.filter (fun t => decide (t.symbol = s))).countP
          (fun t => !isWinJ (parsedPnl t) && !isLossJ (parsedPnl t))
  ∧ st.longTrades
      = (rows.filter (fun t => decide (t.symbol = s))).countP (fun t => decide (t.side = "long"))
  ∧ st.shortTrades
      = (rows.filter (fun t => decide (t.symbol = s))).countP (fun t => decide (t.side = "short"))
  ∧ st.winRate = .num ((st.winTrades : ℚ) / st.totalTrades * 100)
  ∧ st.avgWin = (if st.winTrades = 0 then .num 0
      else .num (winSumQ (rows.filter (fun t => decide (t.symbol = s))) / st.winTrades))
  ∧ st.avgLoss = (if st.lossTrades = 0 then .num 0
      else .num (lossSumQ (rows.filter (fun t => decide (t.symbol = s))) / st.lossTrades))
  ∧ st.profitFactor = (if st.lossTrades = 0 then .num 0 else jsDiv st.avgWin st.avgLoss)
  ∧ st.longWinRate = (if st.longTrades = 0 then .num 0
      else .num ((countDirWins rows s "long" : ℚ) / st.longTrades * 100))
  ∧ st.shortWinRate = (if st.shortTrades = 0 then .num 0
      else .num ((countDirWins rows s "short" : ℚ) / st.shortTrades * 100)) := by
  obtain ⟨ha, hst⟩ := (mem_analyzeStats rows s st).mp h
  have hF : 0 < (rows.filter (fun t => decide (t.symbol = s))).length := by
    obtain ⟨t, ht, hts⟩ := List.any_eq_true.mp ha
    exact List.length_pos.mpr (List.ne_nil_of_mem (List.mem_filter.mpr ⟨ht, hts⟩))
  have hsym : st.symbol = s := by
    rw [hst, finalizeStats_symbol, statsFrom_symbol]
    rfl
  have htot : st.totalTrades = (rows.filter (fun t => decide (t.symbol = s))).length := by
    rw [hst, finalizeStats_totalTrades, statsFrom_totalTrades]
    simp [initStats]
  have hwin : st.winTrades
      = (rows.filter (fun t => decide (t.symbol = s))).countP
          (fun t => isWinJ (parsedPnl t)) := by
    rw [hst, finalizeStats_winTrades, statsFrom_winTrades]
    simp [initStats]
  have hloss : st.lossTrades
      = (rows.filter (fun t => decide (t.symbol = s))).countP
          (fun t => isLossJ (parsedPnl t)) := by
    rw [hst, finalizeStats_lossTrades, statsFrom_lossTrades]
    simp [initStats]
  have hbe : st.breakEvenTrades
      = (rows.filter (fun t => decide (t.symbol = s))).countP
          (fun t => !isWinJ (parsedPnl t) && !isLossJ (parsedPnl t)) := by
    rw [hst, finalizeStats_breakEvenTrades, statsFrom_breakEvenTrades]
    simp [initStats]
  have hlong : st.longTrades
      = (rows.filter (fun t => decide (t.symbol = s))).countP
          (fun t => decide (t.side = "long")) := by
    rw [hst, finalizeStats_longTrades, statsFrom_longTrades]
    simp [initStats]
  have hshort : st.shortTrades
      = (rows.filter (fun t => decide (t.symbol = s))).countP
          (fun t => decide (t.side = "short")) := by
    rw [hst, finalizeStats_shortTrades, statsFrom_shortTrades]
    simp [initStats]
  have havgw0 : (statsFrom (initStats s)
      (rows.filter (fun t => decide (t.symbol = s)))).avgWin
        = .num (winSumQ (rows.filter (fun t => decide (t.symbol = s)))) := by
    rw [statsFrom_avgWin]
    simp [initStats, jsAdd]
  have havgl0 : (statsFrom (initStats s)
      (rows.filter (fun t => decide (t.symbol = s)))).avgLoss
        = .num (lossSumQ (rows.filter (fun t => decide (t.symbol = s)))) := by
    rw [statsFrom_avgLoss]
    simp [initStats, jsAdd]
  have hwr : st.winRate = .num ((st.winTrades : ℚ) / st.totalTrades * 100) := by
    rw [hwin, htot, hst, finalizeStats_winRate, statsFrom_winTrades, statsFrom_totalTrades]
    have := hF
    simp only [initStats, Nat.zero_add, zero_add]
    rw [if_pos this]
  have havgw : st.avgWin = (if st.winTrades = 0 then .num 0
      else .num (winSumQ (rows.filter (fun t => decide (t.symbol = s))) / st.winTrades)) := by
    rw [hwin, hst, finalizeStats_avgWin, statsFrom_winTrades, havgw0]
    simp only [initStats, zero_add]
    by_cases h0 : (rows.filter (fun t => decide (t.symbol = s))).countP
        (fun t => isWinJ (parsedPnl t)) = 0
    · simp [h0]
    · rw [if_pos (Nat.pos_of_ne_zero h0), if_neg h0]
      simp [jsDivNat, jsDiv]
  have havgl : st.avgLoss = (if st.lossTrades = 0 then .num 0
      else .num (lossSumQ (rows.filter (fun t => decide (t.symbol = s))) / st.lossTrades)) := by
    rw [hloss, hst, finalizeStats_avgLoss, statsFrom_lossTrades, havgl0]
    simp only [initStats, zero_add]
    by_cases h0 : (rows.filter (fun t => decide (t.symbol = s))).countP
        (fun t => isLossJ (parsedPnl t)) = 0
    · simp [h0]
    · rw [if_pos (Nat.pos_of_ne_zero h0), if_neg h0]
      simp [jsDivNat, jsDiv]
  have hpf : st.profitFactor
      = (if st.lossTrades = 0 then .num 0 else jsDiv st.avgWin st.avgLoss) := by
    have hfp := finalizeStats_profitFactor rows
      (statsFrom (initStats s) (rows.filter (fun t => decide (t.symbol = s))))
    rw [← hst] at hfp
    rw [hfp]
    by_cases h0 : st.lossTrades = 0
    · rw [if_pos h0]
      have : st.avgLoss = .num 0 := by rw [havgl, if_pos h0]
      rw [this]
      simp [jsGt]
    · rw [if_neg h0]
      have hpos : 0 < lossSumQ (rows.filter (fun t => decide (t.symbol = s))) := by
        apply lossSumQ_pos
        rw [← hloss]
        exact Nat.pos_of_ne_zero h0
      have hlpos : (0:ℚ) < (st.lossTrades : ℚ) := by
        exact_mod_cast Nat.pos_of_ne_zero h0
      have : st.avgLoss
          = .num (lossSumQ (rows.filter (fun t => decide (t.symbol = s))) / st.lossTrades) := by
        rw [havgl, if_neg h0]
      rw [this]
      rw [if_pos ?hgt]
      case hgt =>
        simp only [jsGt, decide_eq_true_eq]
        positivity
  have hlwr : st.longWinRate = (if st.longTrades = 0 then .num 0
      else .num ((countDirWins rows s "long" : ℚ) / st.longTrades * 100)) := by
    rw [hlong, hst, finalizeStats_longWinRate, statsFrom_longTrades, statsFrom_symbol]
    simp only [initStats, zero_add]
    by_cases h0 : (rows.filter (fun t => decide (t.symbol = s))).countP
        (fun t => decide (t.side = "long")) = 0
    · simp [h0]
    · rw [if_pos (Nat.pos_of_ne_zero h0), if_neg h0]
  have hswr : st.shortWinRate = (if st.shortTrades = 0 then .num 0
      else .num ((countDirWins rows s "short" : ℚ) / st.shortTrades * 100)) := by
    rw [hshort, hst, finalizeStats_shortWinRate, statsFrom_shortTrades, statsFrom_symbol]
    simp only [initStats, zero_add]
    by_cases h0 : (rows.filter (fun t => decide (t.symbol = s))).countP
        (fun t => decide (t.side = "short")) = 0
    · simp [h0]
    · rw [if_pos (Nat.pos_of_ne_zero h0), if_neg h0]
  exact ⟨hsym, htot, htot ▸ hF, hwin, hloss, hbe, hlong, hshort, hwr, havgw, havgl,
    hpf, hlwr, hswr⟩

theorem totalsWinTrades_eq (rows : List TradeRow) :
    totalsWinTrades rows = rows.countP (fun t => isWinJ (parsedPnl t)) := by
  unfold totalsWinTrades analyzeStats
  rw [List.map_map]
  have hc : ((fun e : String × TradeStats => e.2.winTrades)
      ∘ (fun e : String × TradeStats => (e.1, finalizeStats rows e.2)))
        = (fun e : String × TradeStats => e.2.winTrades) := by
    funext e
    rfl
  rw [hc, sum_insertStats_winTrades]

theorem totalsLossTrades_eq (rows : List TradeRow) :
    totalsLossTrades rows = rows.countP (fun t => isLossJ (parsedPnl t)) := by
  unfold totalsLossTrades analyzeStats
  rw [List.map_map]
  have hc : ((fun e : String × TradeStats => e.2.lossTrades)
      ∘ (fun e : String × TradeStats => (e.1, finalizeStats rows e.2)))
        = (fun e : String × TradeStats => e.2.lossTrades) := by
    funext e
    rfl
  rw [hc, sum_insertStats_lossTrades]

theorem totalWinPnl_foldl (l : List TradeRow) :
    ∀ acc : JSNum,
      l.foldl (fun a t => if isWinJ (parsedPnl t) = true then jsAdd a (parsedPnl t) else a) acc
        = jsAdd acc (.num (winSumQ l)) := by
  induction l with
  | nil =>
      intro acc
      rw [winSumQ_nil]
      cases acc <;> simp [jsAdd]
  | cons t l ih =>
      intro acc
      simp only [List.foldl_cons]
      rw [ih, winSumQ_cons]
      by_cases h : isWinJ (parsedPnl t) = true
      · rw [if_pos h, if_pos h, isWinJ_eq_num (parsedPnl t) h, jsAdd_num_assoc]
        simp [qOf]
      · rw [if_neg h, if_neg h, zero_add]

theorem totalLossPnl_foldl (l : List TradeRow) :
    ∀ acc : JSNum,
      l.foldl (fun a t => if isLossJ (parsedPnl t) = true then jsAdd a (jsAbs (parsedPnl t))
        else a) acc = jsAdd acc (.num (lossSumQ l)) := by
  induction l with
  | nil =>
      intro acc
      rw [lossSumQ_nil]
      cases acc <;> simp [jsAdd]
  | cons t l ih =>
      intro acc
      simp only [List.foldl_cons]
      rw [ih, lossSumQ_cons]
      by_cases h : isLossJ (parsedPnl t) = true
      · rw [if_pos h, if_pos h, isLossJ_eq_num (parsedPnl t) h]
        simp only [jsAbs]
        rw [jsAdd_num_assoc]
        simp [qOf]
      · rw [if_neg h, if_neg h, zero_add]

theorem totalWinPnl_eq (rows : List TradeRow) :
    totalWinPnl rows = .num (winSumQ rows) := by
  unfold totalWinPnl
  rw [totalWinPnl_foldl]
  simp [jsAdd]

theorem totalLossPnl_eq (rows : List TradeRow) :
    totalLossPnl rows = .num (lossSumQ rows) := by
  unfold totalLossPnl
  rw [totalLossPnl_foldl]
  simp [jsAdd]

theorem overallAvgWin_eq (rows : List TradeRow) :
    overallAvgWin rows
      = (if totalsWinTrades rows = 0 then .num 0
         else .num (winSumQ rows / totalsWinTrades rows)) := by
  unfold overallAvgWin
  by_cases h0 : totalsWinTrades rows = 0
  · simp [h0]
  · rw [if_pos (Nat.pos_of_ne_zero h0), if_neg h0, totalWinPnl_eq]
    simp [jsDivNat, jsDiv]

theorem overallAvgLoss_eq (rows : List TradeRow) :
    overallAvgLoss rows
      = (if totalsLossTrades rows = 0 then .num 0
         else .num (lossSumQ rows / totalsLossTrades rows)) := by
  unfold overallAvgLoss
  by_cases h0 : totalsLossTrades rows = 0
  · simp [h0]
  · rw [if_pos (Nat.pos_of_ne_zero h0), if_neg h0, totalLossPnl_eq]
    simp [jsDivNat, jsDiv]

theorem overallProfitFactor_eq (rows : List TradeRow) :
    overallProfitFactor rows
      = (if totalsLossTrades rows = 0 then .num 0
         else jsDiv (overallAvgWin rows) (overallAvgLoss rows)) := by
  unfold overallProfitFactor
  by_cases h0 : totalsLossTrades rows = 0
  · rw [if_pos h0]
    have : overallAvgLoss rows = .num 0 := by rw [overallAvgLoss_eq, if_pos h0]
    rw [this]
    simp [jsGt]
  · rw [if_neg h0]
    have hpos : 0 < lossSumQ rows := by
      apply lossSumQ_pos
      rw [← totalsLossTrades_eq]
      exact Nat.pos_of_ne_zero h0
    have hlpos : (0:ℚ) < (totalsLossTrades rows : ℚ) := by
      exact_mod_cast Nat.pos_of_ne_zero h0
    have hval : overallAvgLoss rows
        = .num (lossSumQ rows / totalsLossTrades rows) := by
      rw [overallAvgLoss_eq, if_neg h0]
    rw [hval]
    rw [if_pos ?hgt]
    case hgt =>
      simp only [jsGt, decide_eq_true_eq]
      positivity

/-! ### Claims about the statistics aggregation -/

/-- C2: every closed trade is classified a win iff its parsed pnl
exceeds 0.01, a loss iff it is below -0.01, and break-even otherwise
(0.005 is break-even); break-even trades are excluded from the
average-win and average-loss sums but counted in `totalTrades`, the
denominator of the win rate. -/
theorem analyzeTrades_classification (rows : List TradeRow) (s : String) (st : TradeStats)
    (h : (s, st) ∈ analyzeStats rows) :
    (∀ q : ℚ, isWinJ (.num q) = true ↔ 1/100 < q)
  ∧ (∀ q : ℚ, isLossJ (.num q) = true ↔ q < -(1/100))
  ∧ isWinJ (.num (1/200)) = false
  ∧ isLossJ (.num (1/200)) = false
  ∧ st.totalTrades = (rows.filter (fun t => decide (t.symbol = s))).length
  ∧ st.winTrades
      = (rows.filter (fun t => decide (t.symbol = s))).countP (fun t => isWinJ (parsedPnl t))
  ∧ st.lossTrades
      = (rows.filter (fun t => decide (t.symbol = s))).countP (fun t => isLossJ (parsedPnl t))
  ∧ st.breakEvenTrades
      = (rows.filter (fun t => decide (t.symbol = s))).countP
          (fun t => !isWinJ (parsedPnl t) && !isLossJ (parsedPnl t))
  ∧ st.winRate = .num ((st.winTrades : ℚ) / st.totalTrades * 100)
  ∧ st.avgWin = (if st.winTrades = 0 then .num 0
      else .num (winSumQ (rows.filter (fun t => decide (t.symbol = s))) / st.winTrades))
  ∧ st.avgLoss = (if st.lossTrades = 0 then .num 0
      else .num (lossSumQ (rows.filter (fun t => decide (t.symbol = s))) / st.lossTrades)) := by
  obtain ⟨hsym, htot, htpos, hwin, hloss, hbe, hlong, hshort, hwr, havgw, havgl, hpf,
    hlwr, hswr⟩ := analyzeStats_core rows s st h
  refine ⟨isWinJ_num_iff, isLossJ_num_iff, ?_, ?_, htot, hwin, hloss, hbe, hwr,
    havgw, havgl⟩
  · refine Bool.eq_false_iff.mpr (fun hb => ?_)
    have := (isWinJ_num_iff (1/200)).mp hb
    norm_num at this
  · refine Bool.eq_false_iff.mpr (fun hb => ?_)
    have := (isLossJ_num_iff (1/200)).mp hb
    norm_num at this

/-- Witness for C2: the sample trade log instantiates the classification
theorem at symbol BTC. -/
theorem analyzeTrades_classification_witness :
    sampleStatsBTC.totalTrades
        = (sampleRows.filter (fun t => decide (t.symbol = "BTC"))).length
  ∧ sampleStatsBTC.winTrades
        = (sampleRows.filter (fun t => decide (t.symbol = "BTC"))).countP
            (fun t => isWinJ (parsedPnl t))
  ∧ sampleStatsBTC.breakEvenTrades
        = (sampleRows.filter (fun t => decide (t.symbol = "BTC"))).countP
            (fun t => !isWinJ (parsedPnl t) && !isLossJ (parsedPnl t)) := by
  have h := analyzeTrades_classification sampleRows "BTC" sampleStatsBTC
    ((mem_analyzeStats sampleRows "BTC" sampleStatsBTC).mpr ⟨by decide, rfl⟩)
  exact ⟨h.2.2.2.2.1, h.2.2.2.2.2.1, h.2.2.2.2.2.2.2.1⟩

/-- C3: per symbol and overall, the profit factor equals the average
winning pnl (sum of winning pnl over the number of wins) divided by the
average absolute losing pnl, and it is 0 when there are no losing
trades. -/
theorem analyzeTrades_profitFactor (rows : List TradeRow) (s : String) (st : TradeStats)
    (h : (s, st) ∈ analyzeStats rows) :
    st.profitFactor = (if st.lossTrades = 0 then .num 0 else jsDiv st.avgWin st.avgLoss)
  ∧ st.avgWin = (if st.winTrades = 0 then .num 0
      else .num (winSumQ (rows.filter (fun t => decide (t.symbol = s))) / st.winTrades))
  ∧ st.avgLoss = (if st.lossTrades = 0 then .num 0
      else .num (lossSumQ (rows.filter (fun t => decide (t.symbol = s))) / st.lossTrades))
  ∧ st.winTrades
      = (rows.filter (fun t => decide (t.symbol = s))).countP (fun t => isWinJ (parsedPnl t))
  ∧ st.lossTrades
      = (rows.filter (fun t => decide (t.symbol = s))).countP (fun t => isLossJ (parsedPnl t))
  ∧ overallProfitFactor rows
      = (if totalsLossTrades rows = 0 then .num 0
         else jsDiv (overallAvgWin rows) (overallAvgLoss rows))
  ∧ overallAvgWin rows
      = (if totalsWinTrades rows = 0 then .num 0
         else .num (winSumQ rows / totalsWinTrades rows))
  ∧ overallAvgLoss rows
      = (if totalsLossTrades rows = 0 then .num 0
         else .num (lossSumQ rows / totalsLossTrades rows))
  ∧ totalsWinTrades rows = rows.countP (fun t => isWinJ (parsedPnl t))
  ∧ totalsLossTrades rows = rows.countP (fun t => isLossJ (parsedPnl t)) := by
  obtain ⟨hsym, htot, htpos, hwin, hloss, hbe, hlong, hshort, hwr, havgw, havgl, hpf,
    hlwr, hswr⟩ := analyzeStats_core rows s st h
  exact ⟨hpf, havgw, havgl, hwin, hloss, overallProfitFactor_eq rows,
    overallAvgWin_eq rows, overallAvgLoss_eq rows, totalsWinTrades_eq rows,
    totalsLossTrades_eq rows⟩

/-- Witness for C3 at the sample trade log. -/
theorem analyzeTrades_profitFactor_witness :
    sampleStatsBTC.profitFactor
      = (if sampleStatsBTC.lossTrades = 0 then .num 0
         else jsDiv sampleStatsBTC.avgWin sampleStatsBTC.avgLoss)
  ∧ overallProfitFactor sampleRows
      = (if totalsLossTrades sampleRows = 0 then .num 0
         else jsDiv (overallAvgWin sampleRows) (overallAvgLoss sampleRows)) := by
  have h := analyzeTrades_profitFactor sampleRows "BTC" sampleStatsBTC
    ((mem_analyzeStats sampleRows "BTC" sampleStatsBTC).mpr ⟨by decide, rfl⟩)
  exact ⟨h.1, h.2.2.2.2.2.1⟩

/-- C8 counterexample: on a one-record log the implementation examines
the record three times (grouping pass, per-symbol directional re-scan,
overall win/loss sum pass), not exactly once as the claim states. -/
theorem analyzeTrades_not_single_pass_cex :
    analyzeRowExaminations
        [{ symbol := "BTC", side := "long", pnl := .vstr "5.5", fee := .vstr "0.1" }]
      ≠ ([{ symbol := "BTC", side := "long", pnl := .vstr "5.5", fee := .vstr "0.1" }] :
          List TradeRow).length := by decide

/-- C8 (amended): the per-direction trade counts and win rates the
implementation computes by re-scanning the trade history per symbol
coincide with the single-pass reference aggregation keyed by symbol and
side. -/
theorem analyzeTrades_dir_single_pass (rows : List TradeRow) (s : String) (st : TradeStats)
    (h : (s, st) ∈ analyzeStats rows) :
    st.longTrades = (spDir rows (s, "long")).trades
  ∧ st.shortTrades = (spDir rows (s, "short")).trades
  ∧ st.longWinRate = (if st.longTrades = 0 then .num 0
      else .num (((spDir rows (s, "long")).wins : ℚ) / st.longTrades * 100))
  ∧ st.shortWinRate = (if st.shortTrades = 0 then .num 0
      else .num (((spDir rows (s, "short")).wins : ℚ) / st.shortTrades * 100)) := by
  obtain ⟨hsym, htot, htpos, hwin, hloss, hbe, hlong, hshort, hwr, havgw, havgl, hpf,
    hlwr, hswr⟩ := analyzeStats_core rows s st h
  have htr : ∀ sd : String,
      (rows.filter (fun t => decide (t.symbol = s))).countP (fun t => decide (t.side = sd))
        = (spDir rows (s, sd)).trades := by
    intro sd
    rw [spDir_eq, List.countP_filter]
    apply List.countP_congr
    intro t _
    simp only [Bool.and_eq_true, decide_eq_true_eq, Prod.mk.injEq]
    tauto
  have hwins : ∀ sd : String, countDirWins rows s sd = (spDir rows (s, sd)).wins := by
    intro sd
    rw [spDir_eq]
    unfold countDirWins
    apply List.countP_congr
    intro t _
    simp only [Bool.and_eq_true, decide_eq_true_eq, Prod.mk.injEq]
    tauto
  refine ⟨hlong.trans (htr "long"), hshort.trans (htr "short"), ?_, ?_⟩
  · rw [hlwr, hwins "long"]
  · rw [hswr, hwins "short"]

/-- Witness for the amended C8 at the sample trade log. -/
theorem analyzeTrades_dir_single_pass_witness :
    sampleStatsBTC.longTrades = (spDir sampleRows ("BTC", "long")).trades
  ∧ sampleStatsBTC.shortTrades = (spDir sampleRows ("BTC", "short")).trades := by
  have h := analyzeTrades_dir_single_pass sampleRows "BTC" sampleStatsBTC
    ((mem_analyzeStats sampleRows "BTC" sampleStatsBTC).mpr ⟨by decide, rfl⟩)
  exact ⟨h.1, h.2.1⟩

/-- C10 counterexample: a non-numeric pnl string is parsed as NaN, not
as 0, and it poisons the accumulated `totalPnl` to NaN instead of
contributing 0. -/
theorem pnl_non_numeric_cex :
    parsedPnl { symbol := "BTC", side := "long", pnl := .vstr "abc", fee := .vstr "0" } = .nan
  ∧ parsedPnl { symbol := "BTC", side := "long", pnl := .vstr "abc", fee := .vstr "0" }
      ≠ .num 0
  ∧ ((insertStats
        [{ symbol := "BTC", side := "long", pnl := .vstr "abc", fee := .vstr "0" }]).map
          (fun e => e.2.totalPnl)) = [.nan] :=
  ⟨rfl, by decide, rfl⟩

/-- C10 (amended): a null/undefined or empty pnl parses as 0 and is
break-even; a non-numeric pnl string parses as NaN, which is likewise
classified break-even — never a win or a loss, never the largest win or
loss — but it is added into `totalPnl`, which therefore becomes NaN
rather than receiving a 0 contribution. -/
theorem pnl_parse_error_handling :
    (∀ sym side fee, parsedPnl { symbol := sym, side := side, pnl := .vnull, fee := fee }
        = .num 0)
  ∧ (∀ sym side fee, parsedPnl { symbol := sym, side := side, pnl := .vstr "", fee := fee }
        = .num 0)
  ∧ isWinJ .nan = false
  ∧ isLossJ .nan = false
  ∧ (∀ st side fee, (updateStats st side .nan fee).winTrades = st.winTrades)
  ∧ (∀ st side fee, (updateStats st side .nan fee).lossTrades = st.lossTrades)
  ∧ (∀ st side fee, (updateStats st side .nan fee).breakEvenTrades
        = st.breakEvenTrades + 1)
  ∧ (∀ st side fee, (updateStats st side .nan fee).totalTrades = st.totalTrades + 1)
  ∧ (∀ st side fee, (updateStats st side .nan fee).largestWin = st.largestWin)
  ∧ (∀ st side fee, (updateStats st side .nan fee).largestLoss = st.largestLoss)
  ∧ (∀ st side fee, (updateStats st side .nan fee).totalPnl = jsAdd st.totalPnl .nan)
  ∧ (∀ a : JSNum, jsAdd a .nan = .nan)
  ∧ (∀ a : ℚ, jsAdd (.num a) (.num 0) = .num a) := by
  have hzero : parseFloatStr "0" = .num 0 := by
    simp [parseFloatStr, takeDigits, digitsToNat]
  refine ⟨?_, ?_, rfl, rfl, ?_, ?_, ?_, ?_, ?_, ?_, ?_, ?_, ?_⟩
  · intro sym side fee
    show jsParseFloat (orZeroStr .vnull) = .num 0
    simp [orZeroStr, jsFalsy, jsParseFloat, hzero]
  · intro sym side fee
    show jsParseFloat (orZeroStr (.vstr "")) = .num 0
    simp [orZeroStr, jsFalsy, jsParseFloat, hzero]
  · intro st side fee
    rw [updateStats_winTrades]
    simp [isWinJ_nan]
  · intro st side fee
    rw [updateStats_lossTrades]
    simp [isLossJ_nan]
  · intro st side fee
    rw [updateStats_breakEvenTrades]
    simp [isWinJ_nan, isLossJ_nan]
  · intro st side fee
    exact updateStats_totalTrades st side .nan fee
  · intro st side fee
    rw [updateStats_largestWin]
    simp [isWinJ_nan]
  · intro st side fee
    rw [updateStats_largestLoss]
    simp [isLossJ_nan]
  · intro st side fee
    exact updateStats_totalPnl st side .nan fee
  · intro a
    cases a <;> rfl
  · intro a
    simp [jsAdd]

/-! ### The reconciliation comparison -/

theorem getLast?_all_eq {α : Type} :
    ∀ (l : List α) (e : α), e ∈ l → (∀ x ∈ l, x = e) → l.getLast? = some e := by
  intro l
  induction l with
  | nil => intro e he _; simp at he
  | cons a l ih =>
      intro e he hall
      cases l with
      | nil =>
          have ha : a = e := hall a (by simp)
          simp [ha]
      | cons b t =>
          rw [List.getLast?_cons_cons]
          apply ih e
          · have hb : b = e := hall b (by simp)
            rw [← hb]
            exact List.mem_cons_self b t
          · intro x hx
            exact hall x (List.mem_cons_of_mem a hx)

theorem mem_of_getLast?_eq {α : Type} :
    ∀ (l : List α) (a : α), l.getLast? = some a → a ∈ l := by
  intro l
  induction l with
  | nil => intro a h; simp at h
  | cons x l ih =>
      intro a h
      cases l with
      | nil =>
          simp at h
          simp [h]
      | cons y t =>
          rw [List.getLast?_cons_cons] at h
          exact List.mem_cons_of_mem x (ih a h)

theorem filter_getLast?_nodup {α : Type} (f : α → String) (l : List α)
    (hn : (l.map f).Nodup) (s : String) (e : α) :
    (l.filter (fun p => decide (f p = s))).getLast? = some e ↔ (e ∈ l ∧ f e = s) := by
  constructor
  · intro h
    have hmem := mem_of_getLast?_eq _ e h
    have h2 := List.mem_filter.mp hmem
    exact ⟨h2.1, by simpa using h2.2⟩
  · rintro ⟨hmem, hfs⟩
    have hef : e ∈ l.filter (fun p => decide (f p = s)) :=
      List.mem_filter.mpr ⟨hmem, by simpa using hfs⟩
    apply getLast?_all_eq _ e hef
    intro x hx
    have hx2 := List.mem_filter.mp hx
    have hfx : f x = s := by simpa using hx2.2
    exact List.inj_on_of_nodup_map hn hx2.1 hmem (by rw [hfx, hfs])

theorem hasIssues_iff (e : ExchangePosition) (d : DbPosition) :
    hasIssues e d = true ↔
      (d.side ≠ e.side ∨ QUANTITY_EPS < |(|e.size|) - (|d.quantity|)|
        ∨ (d.leverage ≠ 0 ∧ e.leverage ≠ 0 ∧ d.leverage ≠ e.leverage)) := by
  simp [hasIssues, Bool.or_eq_true, Bool.and_eq_true, or_assoc, and_assoc]

/-- C1: the reconciliation audit partitions symbols into three disjoint
sets — missing-in-ledger holds exactly the symbols present on the
exchange but not in the database, missing-on-exchange exactly those
present in the database but not on the exchange, and mismatched exactly
those present in both whose side differs, whose absolute quantities
differ by more than 0.0001, or whose leverages are both nonzero and
differ. -/
theorem checkConsistency_partition (exPs : List ExchangePosition) (dbPs : List DbPosition)
    (hex : (exPs.map (fun p => p.symbol)).Nodup)
    (hdb : (dbPs.map (fun p => p.symbol)).Nodup) :
    (∀ s, s ∈ (missingInDb exPs dbPs).map (fun p => p.symbol)
        ↔ (s ∈ exPs.map (fun p => p.symbol) ∧ s ∉ dbPs.map (fun p => p.symbol)))
  ∧ (∀ s, s ∈ (missingOnExchange exPs dbPs).map (fun p => p.symbol)
        ↔ (s ∈ dbPs.map (fun p => p.symbol) ∧ s ∉ exPs.map (fun p => p.symbol)))
  ∧ (∀ s, s ∈ mismatchedSymbols exPs dbPs
        ↔ ∃ e, e ∈ exPs ∧ ∃ d, d ∈ dbPs ∧ e.symbol = s ∧ d.symbol = s ∧
            (d.side ≠ e.side ∨ QUANTITY_EPS < |(|e.size|) - (|d.quantity|)|
              ∨ (d.leverage ≠ 0 ∧ e.leverage ≠ 0 ∧ d.leverage ≠ e.leverage)))
  ∧ (∀ s, ¬(s ∈ (missingInDb exPs dbPs).map (fun p => p.symbol)
        ∧ s ∈ (missingOnExchange exPs dbPs).map (fun p => p.symbol)))
  ∧ (∀ s, ¬(s ∈ (missingInDb exPs dbPs).map (fun p => p.symbol)
        ∧ s ∈ mismatchedSymbols exPs dbPs))
  ∧ (∀ s, ¬(s ∈ (missingOnExchange exPs dbPs).map (fun p => p.symbol)
        ∧ s ∈ mismatchedSymbols exPs dbPs)) := by
  have c1 : ∀ s, s ∈ (missingInDb exPs dbPs).map (fun p => p.symbol)
      ↔ (s ∈ exPs.map (fun p => p.symbol) ∧ s ∉ dbPs.map (fun p => p.symbol)) := by
    intro s
    simp only [missingInDb, List.mem_map, List.mem_filter, Bool.not_eq_eq_eq_not,
      Bool.not_true, List.any_eq_false, decide_eq_false_iff_not]
    constructor
    · rintro ⟨p, ⟨hp, hnd⟩, rfl⟩
      refine ⟨⟨p, hp, rfl⟩, ?_⟩
      rintro ⟨d, hd, hds⟩
      exact hnd d hd (by simpa using hds)
    · rintro ⟨⟨p, hp, rfl⟩, hnd⟩
      refine ⟨p, ⟨hp, ?_⟩, rfl⟩
      intro d hd hds
      exact hnd ⟨d, hd, by simpa using hds⟩
  have c2 : ∀ s, s ∈ (missingOnExchange exPs dbPs).map (fun p => p.symbol)
      ↔ (s ∈ dbPs.map (fun p => p.symbol) ∧ s ∉ exPs.map (fun p => p.symbol)) := by
    intro s
    simp only [missingOnExchange, List.mem_map, List.mem_filter, Bool.not_eq_eq_eq_not,
      Bool.not_true, List.any_eq_false, decide_eq_false_iff_not]
    constructor
    · rintro ⟨p, ⟨hp, hnd⟩, rfl⟩
      refine ⟨⟨p, hp, rfl⟩, ?_⟩
      rintro ⟨e, he, hes⟩
      exact hnd e he (by simpa using hes)
    · rintro ⟨⟨p, hp, rfl⟩, hnd⟩
      refine ⟨p, ⟨hp, ?_⟩, rfl⟩
      intro e he hes
      exact hnd ⟨e, he, by simpa using hes⟩
  have c3 : ∀ s, s ∈ mismatchedSymbols exPs dbPs
      ↔ ∃ e, e ∈ exPs ∧ ∃ d, d ∈ dbPs ∧ e.symbol = s ∧ d.symbol = s ∧
          (d.side ≠ e.side ∨ QUANTITY_EPS < |(|e.size|) - (|d.quantity|)|
            ∨ (d.leverage ≠ 0 ∧ e.leverage ≠ 0 ∧ d.leverage ≠ e.leverage)) := by
    intro s
    unfold mismatchedSymbols
    rw [List.mem_filter]
    constructor
    · rintro ⟨hs, hpred⟩
      rcases hEx : symMapLookupEx exPs s with _ | e
      · rw [hEx] at hpred
        rcases hDb : symMapLookupDb dbPs s with _ | d <;> rw [hDb] at hpred <;>
          simp at hpred
      · rcases hDb : symMapLookupDb dbPs s with _ | d
        · rw [hEx, hDb] at hpred
          simp at hpred
        · rw [hEx, hDb] at hpred
          simp only at hpred
          have hEx2 : (exPs.filter (fun p => decide (p.symbol = s))).getLast? = some e := hEx
          have hDb2 : (dbPs.filter (fun p => decide (p.symbol = s))).getLast? = some d := hDb
          have he := (filter_getLast?_nodup (fun p => p.symbol) exPs hex s e).mp hEx2
          have hd := (filter_getLast?_nodup (fun p => p.symbol) dbPs hdb s d).mp hDb2
          exact ⟨e, he.1, d, hd.1, he.2, hd.2, (hasIssues_iff e d).mp hpred⟩
    · rintro ⟨e, he, d, hd, hes, hds, hiss⟩
      have hEx : symMapLookupEx exPs s = some e := by
        show (exPs.filter (fun p => decide (p.symbol = s))).getLast? = some e
        exact (filter_getLast?_nodup (fun p => p.symbol) exPs hex s e).mpr ⟨he, hes⟩
      have hDb : symMapLookupDb dbPs s = some d := by
        show (dbPs.filter (fun p => decide (p.symbol = s))).getLast? = some d
        exact (filter_getLast?_nodup (fun p => p.symbol) dbPs hdb s d).mpr ⟨hd, hds⟩
      refine ⟨?_, ?_⟩
      · rw [List.mem_dedup]
        exact List.mem_map.mpr ⟨e, he, hes⟩
      · rw [hEx, hDb]
        simp only
        exact (hasIssues_iff e d).mpr hiss
  refine ⟨c1, c2, c3, ?_, ?_, ?_⟩
  · intro s ⟨h1, h2⟩
    exact ((c1 s).mp h1).2 ((c2 s).mp h2).1
  · intro s ⟨h1, h2⟩
    obtain ⟨e, he, d, hd, hes, hds, _⟩ := (c3 s).mp h2
    exact ((c1 s).mp h1).2 (List.mem_map.mpr ⟨d, hd, hds⟩)
  · intro s ⟨h1, h2⟩
    obtain ⟨e, he, d, hd, hes, hds, _⟩ := (c3 s).mp h2
    exact ((c2 s).mp h1).2 (List.mem_map.mpr ⟨e, he, hes⟩)

/-- Witness for C1: on the spec's example — exchange holds BTC qty 5
long, the ledger holds BTC qty 5 short with equal quantity and
leverage — the audit reports no missing symbols and exactly one
mismatch, BTC. -/
theorem checkConsistency_partition_witness :
    ("BTC" ∈ mismatchedSymbols btcExchangeSnapshot btcLedgerSnapshot
        ↔ ∃ e, e ∈ btcExchangeSnapshot ∧ ∃ d, d ∈ btcLedgerSnapshot ∧ e.symbol = "BTC"
            ∧ d.symbol = "BTC" ∧
            (d.side ≠ e.side ∨ QUANTITY_EPS < |(|e.size|) - (|d.quantity|)|
              ∨ (d.leverage ≠ 0 ∧ e.leverage ≠ 0 ∧ d.leverage ≠ e.leverage)))
  ∧ missingInDb btcExchangeSnapshot btcLedgerSnapshot = []
  ∧ missingOnExchange btcExchangeSnapshot btcLedgerSnapshot = []
  ∧ mismatchedSymbols btcExchangeSnapshot btcLedgerSnapshot = ["BTC"] := by
  refine ⟨(checkConsistency_partition btcExchangeSnapshot btcLedgerSnapshot
      (by decide) (by decide)).2.2.1 "BTC", ?_, ?_, ?_⟩
  · decide
  · decide
  · decide

/-! ### Frame, configuration and executor claims -/

/-- C9: the consistency check is read-only — running its effect trace
leaves the database positions, the trade log and the exchange state
exactly as they were (only console output is produced). -/
theorem checkConsistency_read_only (w : SystemState) :
    (runEffects w checkConsistencyTrace).dbPositions = w.dbPositions
  ∧ (runEffects w checkConsistencyTrace).dbTrades = w.dbTrades
  ∧ (runEffects w checkConsistencyTrace).exchangePositions = w.exchangePositions :=
  ⟨rfl, rfl, rfl⟩

/-- C4: for every `maxLeverage`, the Alpha Beta configuration satisfies
the load-time invariants — trailing-stop triggers strictly increase
(3 < 6 < 10), partial-take-profit triggers strictly increase
(5 < 10 < 15), and the cumulative closePercent is 50 + 30 + 20 = 100,
hence at most 100. -/
theorem alphaBeta_config_invariants (maxLeverage : ℚ) :
    (getAlphaBetaStrategy maxLeverage).trailingStop.level1.trigger
        < (getAlphaBetaStrategy maxLeverage).trailingStop.level2.trigger
  ∧ (getAlphaBetaStrategy maxLeverage).trailingStop.level2.trigger
        < (getAlphaBetaStrategy maxLeverage).trailingStop.level3.trigger
  ∧ (getAlphaBetaStrategy maxLeverage).partialTakeProfit.stage1.trigger
        < (getAlphaBetaStrategy maxLeverage).partialTakeProfit.stage2.trigger
  ∧ (getAlphaBetaStrategy maxLeverage).partialTakeProfit.stage2.trigger
        < (getAlphaBetaStrategy maxLeverage).partialTakeProfit.stage3.trigger
  ∧ (getAlphaBetaStrategy maxLeverage).partialTakeProfit.stage1.closePercent
      + (getAlphaBetaStrategy maxLeverage).partialTakeProfit.stage2.closePercent
      + (getAlphaBetaStrategy maxLeverage).partialTakeProfit.stage3.closePercent = 100
  ∧ (getAlphaBetaStrategy maxLeverage).partialTakeProfit.stage1.closePercent
      + (getAlphaBetaStrategy maxLeverage).partialTakeProfit.stage2.closePercent
      + (getAlphaBetaStrategy maxLeverage).partialTakeProfit.stage3.closePercent
      ≤ 100 := by
  refine ⟨?_, ?_, ?_, ?_, ?_, ?_⟩ <;> norm_num [getAlphaBetaStrategy]

theorem executeAction_processed_mono (s : ExecutorState) (k k' : DedupKey)
    (h : k ∈ s.processedKeys) : k ∈ (executeAction s k').processedKeys := by
  unfold executeAction
  by_cases hm : k' ∈ s.processedKeys <;> simp [hm, h]

theorem deliverAll_processed_mono (ks : List DedupKey) :
    ∀ (s : ExecutorState) (k : DedupKey), k ∈ s.processedKeys →
      k ∈ (deliverAll s ks).processedKeys := by
  induction ks with
  | nil => intro s k h; exact h
  | cons k' ks ih =>
      intro s k h
      exact ih _ k (executeAction_processed_mono s k k' h)

theorem deliverAll_mem_processed (ks : List DedupKey) :
    ∀ (s : ExecutorState) (k : DedupKey), k ∈ ks →
      k ∈ (deliverAll s ks).processedKeys := by
  induction ks with
  | nil => intro s k h; simp at h
  | cons k' ks ih =>
      intro s k h
      rcases List.mem_cons.mp h with rfl | h2
      · show k ∈ (deliverAll (executeAction s k) ks).processedKeys
        apply deliverAll_processed_mono
        unfold executeAction
        by_cases hm : k ∈ s.processedKeys <;> simp [hm]
      · show k ∈ (deliverAll (executeAction s k') ks).processedKeys
        exact ih _ k h2

theorem executor_invariant (ks : List DedupKey) :
    ∀ s : ExecutorState,
      (∀ k, s.submittedOrders.count k = (if k ∈ s.processedKeys then 1 else 0)
          ∧ s.tradeRecords.count k = (if k ∈ s.processedKeys then 1 else 0)) →
      ∀ k, (deliverAll s ks).submittedOrders.count k
            = (if k ∈ (deliverAll s ks).processedKeys then 1 else 0)
          ∧ (deliverAll s ks).tradeRecords.count k
            = (if k ∈ (deliverAll s ks).processedKeys then 1 else 0) := by
  induction ks with
  | nil => intro s h; exact h
  | cons k' ks ih =>
      intro s h
      apply ih
      intro k
      unfold executeAction
      by_cases hm : k' ∈ s.processedKeys
      · rw [if_pos hm]
        exact h k
      · rw [if_neg hm]
        have horders := (h k).1
        have htrades := (h k).2
        by_cases hk : k = k'
        · subst hk
          rw [if_neg hm] at horders htrades
          constructor
          · simp only [List.count_append]
            simp [horders, List.count_singleton, List.mem_cons]
          · simp only [List.count_append]
            simp [htrades, List.count_singleton, List.mem_cons]
        · constructor
          · simp only [List.count_append]
            rw [List.count_singleton']
            simp only [if_neg hk, List.mem_cons]
            by_cases hp : k ∈ s.processedKeys <;>
              simp [hp, hk, horders, Ne.symm hk]
          · simp only [List.count_append]
            rw [List.count_singleton']
            simp only [if_neg hk, List.mem_cons]
            by_cases hp : k ∈ s.processedKeys <;>
              simp [hp, hk, htrades, Ne.symm hk]

/-- C7: for every protective action and any sequence of deliveries
containing that action's dedup key any number of times, execution
produces exactly one order submission and exactly one trade record for
that key. -/
theorem executor_idempotent (ks : List DedupKey) (k : DedupKey) (h : k ∈ ks) :
    (deliverAll ExecutorState.start ks).submittedOrders.count k = 1
  ∧ (deliverAll ExecutorState.start ks).tradeRecords.count k = 1 := by
  have hinv := executor_invariant ks ExecutorState.start
    (by intro k0; constructor <;> simp [ExecutorState.start]) k
  have hmem := deliverAll_mem_processed ks ExecutorState.start k h
  exact ⟨hinv.1.trans (if_pos hmem), hinv.2.trans (if_pos hmem)⟩

/-- Witness for C7: delivering one protective action three times yields
exactly one order and one trade record. -/
theorem executor_idempotent_witness :
    (deliverAll ExecutorState.start
        [⟨"BTC", "stage1", 4⟩, ⟨"BTC", "stage1", 4⟩,
         ⟨"BTC", "stage1", 4⟩]).submittedOrders.count ⟨"BTC", "stage1", 4⟩ = 1
  ∧ (deliverAll ExecutorState.start
        [⟨"BTC", "stage1", 4⟩, ⟨"BTC", "stage1", 4⟩,
         ⟨"BTC", "stage1", 4⟩]).tradeRecords.count ⟨"BTC", "stage1", 4⟩ = 1 :=
  executor_idempotent _ _ (by decide)

/-! ### Protection-engine claims -/

theorem evaluateProfitChecks_ne_hardStop (params : StrategyParams) (pos : EnginePosition)
    (pnl peak : ℚ) : evaluateProfitChecks params pos pnl peak ≠ .HardStopLoss := by
  unfold evaluateProfitChecks
  by_cases h1 : params.peakDrawdownProtection ≤ peak - pnl
  · simp [h1]
  · rw [if_neg h1]
    cases hf : firstEligibleStage (tpStages params) pos.completedStages pnl <;> simp

theorem evaluate_hardStop_iff (params : StrategyParams)
    (hen : params.enableCodeLevelProtection = true) (pos : EnginePosition) (price : ℚ) :
    evaluate params pos price false = .HardStopLoss
      ↔ pnlPercent pos.side pos.entryPrice price pos.leverage
          ≤ stopLossThreshold params.stopLoss pos.leverage := by
  unfold evaluate
  rw [hen]
  simp only [Bool.not_true, Bool.false_eq_true, if_false, Bool.false_and]
  constructor
  · intro h
    by_cases hsl : pnlPercent pos.side pos.entryPrice price pos.leverage
        ≤ stopLossThreshold params.stopLoss pos.leverage
    · exact hsl
    · exfalso
      rw [if_neg hsl] at h
      cases hf : trailingFloor (trailingLevels params)
          (max pos.peakPnlPercent (pnlPercent pos.side pos.entryPrice price pos.leverage)) with
      | none =>
          rw [hf] at h
          dsimp only at h
          exact evaluateProfitChecks_ne_hardStop params pos _ _ h
      | some f =>
          rw [hf] at h
          dsimp only at h
          by_cases hfloat : pnlPercent pos.side pos.entryPrice price pos.leverage ≤ f
          · rw [if_pos hfloat] at h
            exact ProtectAction.noConfusion h
          · rw [if_neg hfloat] at h
            exact evaluateProfitChecks_ne_hardStop params pos _ _ h
  · intro h
    rw [if_pos h]

/-- C6: with the Alpha Beta stop-loss configuration
{low: -5, mid: -4, high: -3.5} a position at leverage 7 falls in the
mid bracket, and the engine emits HardStopLoss exactly when pnlPercent
is at most -4. -/
theorem hardStopLoss_mid_bracket (maxLeverage : ℚ) (pos : EnginePosition) (price : ℚ)
    (h7 : pos.leverage = 7) :
    (evaluate (getAlphaBetaStrategy maxLeverage) pos price false = .HardStopLoss
      ↔ pnlPercent pos.side pos.entryPrice price pos.leverage ≤ -4)
  ∧ stopLossThreshold (getAlphaBetaStrategy maxLeverage).stopLoss pos.leverage = -4 := by
  have hth : stopLossThreshold (getAlphaBetaStrategy maxLeverage).stopLoss pos.leverage
      = -4 := by
    rw [h7]
    norm_num [stopLossThreshold, getAlphaBetaStrategy]
  refine ⟨?_, hth⟩
  rw [evaluate_hardStop_iff (getAlphaBetaStrategy maxLeverage) rfl pos price, hth]

/-- Witness for C6: at entry 700 and leverage 7, price 696 gives
pnlPercent = -4.0 and triggers HardStopLoss; price 696.1 gives
pnlPercent = -3.9 and does not. -/
theorem hardStopLoss_mid_bracket_witness :
    evaluate (getAlphaBetaStrategy 3)
        { side := .long, entryPrice := 700, leverage := 7, peakPnlPercent := 0,
          completedStages := [] } 696 false = .HardStopLoss
  ∧ evaluate (getAlphaBetaStrategy 3)
        { side := .long, entryPrice := 700, leverage := 7, peakPnlPercent := 0,
          completedStages := [] } (6961/10) false ≠ .HardStopLoss := by
  have h1 := hardStopLoss_mid_bracket 3
    { side := .long, entryPrice := 700, leverage := 7, peakPnlPercent := 0,
      completedStages := [] } 696 rfl
  have h2 := hardStopLoss_mid_bracket 3
    { side := .long, entryPrice := 700, leverage := 7, peakPnlPercent := 0,
      completedStages := [] } (6961/10) rfl
  constructor
  · apply h1.1.mpr
    norm_num [pnlPercent]
  · intro hc
    have := h2.1.mp hc
    norm_num [pnlPercent] at this

theorem trailingFloor_alphaBeta (maxLeverage p : ℚ) :
    trailingFloor (trailingLevels (getAlphaBetaStrategy maxLeverage)) p
      = (if 10 ≤ p then some 6 else if 6 ≤ p then some 3
         else if 3 ≤ p then some 1 else none) := by
  unfold trailingFloor highestReachedLevel trailingLevels getAlphaBetaStrategy
  by_cases h3 : (3:ℚ) ≤ p <;> by_cases h6 : (6:ℚ) ≤ p <;> by_cases h10 : (10:ℚ) ≤ p <;>
    first
      | (exfalso; linarith)
      | simp [List.filter, h3, h6, h10]

theorem le_runPeak (l : List ℚ) : ∀ b : ℚ, b ≤ runPeak b l := by
  induction l with
  | nil => intro b; exact le_refl b
  | cons x l ih =>
      intro b
      exact le_trans (le_max_left b x) (ih (max b x))

/-- C5: over any sequence of engine evaluations the trailing-stop floor
is non-decreasing — the peak only rises, and the floor (the `stopAt` of
the highest trailing level the peak has reached) only tightens with the
peak; and on the (3,1)/(6,3)/(10,6) levels, a position whose peak
reached 7% and whose pnl fell to 3% closes by TrailingStopClose at the
floor 3 locked by the 6→3 level, not at the 3→1 level's floor 1. -/
theorem trailingStop_floor_monotone (maxLeverage peak0 : ℚ) (l1 l2 : List ℚ) :
    (∀ p q : ℚ, p ≤ q →
      optFloorLE (trailingFloor (trailingLevels (getAlphaBetaStrategy maxLeverage)) p)
        (trailingFloor (trailingLevels (getAlphaBetaStrategy maxLeverage)) q))
  ∧ optFloorLE
      (trailingFloor (trailingLevels (getAlphaBetaStrategy maxLeverage)) (runPeak peak0 l1))
      (trailingFloor (trailingLevels (getAlphaBetaStrategy maxLeverage))
        (runPeak peak0 (l1 ++ l2)))
  ∧ evaluate (getAlphaBetaStrategy maxLeverage)
      { side := .long, entryPrice := 100, leverage := 1, peakPnlPercent := 7,
        completedStages := [] } 103 false = .TrailingStopClose 3 := by
  have hmono : ∀ p q : ℚ, p ≤ q →
      optFloorLE (trailingFloor (trailingLevels (getAlphaBetaStrategy maxLeverage)) p)
        (trailingFloor (trailingLevels (getAlphaBetaStrategy maxLeverage)) q) := by
    intro p q hpq
    rw [trailingFloor_alphaBeta, trailingFloor_alphaBeta]
    by_cases h10p : 10 ≤ p <;> by_cases h6p : 6 ≤ p <;> by_cases h3p : 3 ≤ p <;>
      by_cases h10q : 10 ≤ q <;> by_cases h6q : 6 ≤ q <;> by_cases h3q : 3 ≤ q <;>
        first
          | (exfalso; linarith)
          | simp only [h10p, h6p, h3p, h10q, h6q, h3q, if_pos, if_neg, if_true, if_false,
              optFloorLE] <;> norm_num
  have hpre : runPeak peak0 l1 ≤ runPeak peak0 (l1 ++ l2) := by
    unfold runPeak
    rw [List.foldl_append]
    exact le_runPeak l2 (List.foldl max peak0 l1)
  have hpnl : pnlPercent Side.long 100 103 1 = 3 := by
    norm_num [pnlPercent]
  have hex : evaluate (getAlphaBetaStrategy maxLeverage)
      { side := .long, entryPrice := 100, leverage := 1, peakPnlPercent := 7,
        completedStages := [] } 103 false = .TrailingStopClose 3 := by
    unfold evaluate
    rw [show (getAlphaBetaStrategy maxLeverage).enableCodeLevelProtection = true from rfl]
    simp only [Bool.not_true, Bool.false_eq_true, if_false, Bool.false_and]
    rw [show pnlPercent
        ({ side := .long, entryPrice := 100, leverage := 1, peakPnlPercent := 7,
           completedStages := [] } : EnginePosition).side 100 103 1 = 3 from hpnl]
    rw [show max (7:ℚ) 3 = 7 by norm_num]
    rw [if_neg (by norm_num [stopLossThreshold, getAlphaBetaStrategy])]
    rw [show trailingFloor (trailingLevels (getAlphaBetaStrategy maxLeverage)) 7
        = some 3 by rw [trailingFloor_alphaBeta]; norm_num]
    dsimp only
    rw [if_pos (by norm_num)]
  exact ⟨hmono, hmono _ _ hpre, hex⟩
